import Mathlib

/-!
Verification of the Bluesky data-extraction scripts.

This file gives a shallow embedding, in Lean 4, of the session, pagination,
filtering, thread-enrichment and persistence logic of the repository's
Python scripts (`feed_based.py`, `user_based.py`, `search_based.py`,
`trend_based_unauth.py`, `user_based_unauth.py`), and proves the frozen
claims about them.

Modelling conventions:
* Python strings are `String` (or `List Char` where character-level
  operations matter); `None` is `Option.none`.
* Python truthiness of an optional string (`if cursor:`/`if not post_uri:`)
  is `pyTruthy`, which is false for `None` and for the empty string.
* The network is an oracle passed as a function argument: an HTTP response
  is a value of an explicit response type, and an exception raised by
  `requests` is a distinguished constructor.  Loops whose termination
  depends on the server are given explicit fuel; loops that the code itself
  bounds recurse on the bound.
* `datetime.fromisoformat(s.replace("Z", "+00:00"))` is abstracted as a
  parameter `parse : String → Option Int` (`none` models `ValueError`);
  `str.isprintable`, `str.isalnum` and whitespace are likewise abstracted
  as character predicates, since the claims do not depend on the concrete
  Unicode tables.
-/

/-- Python truthiness of an optional string: `None` and the empty string
are falsy, every other string is truthy. -/
def pyTruthy : Option String → Bool
  | none => false
  | some s => !(s == "")

/-- `record` object of a post, with the two fields the scripts read:
`createdAt` (absent key modelled as `none`) and `langs`
(`record.get('langs', [])`; an absent or null list is modelled as `[]`,
which is observationally equivalent for the scripts' truthiness test). -/
structure PostRecord where
  createdAt : Option String
  langs : List String
deriving DecidableEq

/-- The `post` object inside a feed item: the fields the scripts read are
`uri` and `record`. -/
structure PostView where
  uri : Option String
  record : PostRecord
deriving DecidableEq

/-- Default `PostView` standing for the empty dict `{}` produced by
`.get('post', {})`. -/
def defaultPostView : PostView :=
  { uri := none, record := { createdAt := none, langs := [] } }

/-- One structured comment as built by `fetch_comments_and_replies`:
a dict with a `post` field and a `replies` field. -/
structure StructuredComment where
  post : PostView
  replies : List PostView
deriving DecidableEq

/-- A feed item as returned by `app.bsky.feed.getFeed` /
`getAuthorFeed`: a dict with a `post` object, plus the `comments` list the
scripts inject. -/
structure FeedItem where
  post : PostView
  comments : List StructuredComment
deriving DecidableEq

/-- A search result item as returned by `app.bsky.feed.searchPosts`:
unlike feed items, the post fields (`record`, `uri`) sit at top level;
the scripts inject a `comments` list. -/
structure SearchPost where
  uri : Option String
  record : PostRecord
  comments : List StructuredComment
deriving DecidableEq

/-! ## `clean_input` (claim C10)

`feed_based.py` lines 27-31:
```
def clean_input(input_string: str) -> str:
    if input_string is None:
        return ""
    return ''.join(filter(str.isprintable, input_string)).strip()
```
`user_based.py` lines 15-20:
```
def clean_input(input_string):
    return ''.join(filter(str.isprintable, input_string))
```
Strings are modelled as `List Char`; `str.isprintable` and the whitespace
test used by `str.strip()` are abstract character predicates. -/

/-- Python `str.strip()`: drop leading and trailing characters satisfying
the whitespace predicate `ws`.  Expressed with `List.dropWhile` at the
front and `List.rdropWhile` at the back. -/
def pyStrip (ws : Char → Bool) (l : List Char) : List Char :=
  (l.dropWhile ws).rdropWhile ws

/-- `clean_input` of `feed_based.py`: `None` becomes `""`, otherwise the
non-printable characters are filtered out and the result is stripped. -/
def clean_input (printable ws : Char → Bool) : Option (List Char) → List Char
  | none => []
  | some s => pyStrip ws (s.filter printable)

/-- `clean_input` of `user_based.py`: only the printability filter, no
strip and no `None` handling. -/
def clean_input_user (printable : Char → Bool) (s : List Char) : List Char :=
  s.filter printable

/-- Characters surviving `pyStrip` come from the input list. -/
theorem mem_pyStrip {ws : Char → Bool} {l : List Char} {c : Char}
    (h : c ∈ pyStrip ws l) : c ∈ l := by
  have h1 : c ∈ l.dropWhile ws :=
    ((List.rdropWhile_prefix ws (l.dropWhile ws)).sublist.subset) h
  exact ((List.dropWhile_suffix ws).sublist.subset) h1

/-- If the front of `l` is already stripped, stripping the back first and
then the front changes nothing at the front. -/
theorem dropWhile_rdropWhile_of_dropWhile_eq_self {ws : Char → Bool}
    {l : List Char} (h : l.dropWhile ws = l) :
    (l.rdropWhile ws).dropWhile ws = l.rdropWhile ws := by
  rcases hp : l.rdropWhile ws with _ | ⟨x, t⟩
  · simp
  · have hpre : l.rdropWhile ws <+: l := List.rdropWhile_prefix ws l
    rw [hp] at hpre
    rcases hpre with ⟨t2, ht2⟩
    rw [List.dropWhile_eq_self_iff] at h ⊢
    intro hl
    subst ht2
    have := h (by simp)
    simpa using this

/-- `pyStrip` is idempotent. -/
theorem pyStrip_idem (ws : Char → Bool) (l : List Char) :
    pyStrip ws (pyStrip ws l) = pyStrip ws l := by
  unfold pyStrip
  have h1 : ((l.dropWhile ws).rdropWhile ws).dropWhile ws
      = (l.dropWhile ws).rdropWhile ws :=
    dropWhile_rdropWhile_of_dropWhile_eq_self (List.dropWhile_idempotent ws l)
  rw [h1, List.rdropWhile_idempotent]

/-- Claim C10: `clean_input` is idempotent and sanitizing.  Every character
of the output satisfies the printability predicate, applying `clean_input`
twice equals applying it once (for both the `feed_based.py` variant and the
`user_based.py` variant), and the `feed_based.py` variant maps a `None`
input to the empty string.  The statement is proved for arbitrary
printability and whitespace predicates, hence in particular for Python's
`str.isprintable` and `str.strip` character classes. -/
theorem clean_input_idempotent_printable
    (printable ws : Char → Bool) (s : List Char) (sOpt : Option (List Char)) :
    (∀ c ∈ clean_input printable ws sOpt, printable c = true) ∧
    clean_input printable ws (some (clean_input printable ws sOpt))
      = clean_input printable ws sOpt ∧
    clean_input printable ws none = [] ∧
    (∀ c ∈ clean_input_user printable s, printable c = true) ∧
    clean_input_user printable (clean_input_user printable s)
      = clean_input_user printable s := by
  have hmem : ∀ (t : List Char) (c : Char),
      c ∈ clean_input printable ws (some t) → printable c = true := by
    intro t c hc
    have : c ∈ t.filter printable := mem_pyStrip hc
    exact (List.mem_filter.mp this).2
  refine ⟨?_, ?_, rfl, ?_, ?_⟩
  · intro c hc
    cases sOpt with
    | none => simp [clean_input] at hc
    | some t => exact hmem t c hc
  · cases sOpt with
    | none => simp [clean_input, pyStrip]
    | some t =>
        show clean_input printable ws (some (clean_input printable ws (some t)))
          = clean_input printable ws (some t)
        have hfix : (clean_input printable ws (some t)).filter printable
            = clean_input printable ws (some t) :=
          List.filter_eq_self.mpr (fun c hc => hmem t c hc)
        show pyStrip ws ((clean_input printable ws (some t)).filter printable)
          = clean_input printable ws (some t)
        rw [hfix]
        exact pyStrip_idem ws _
  · intro c hc
    exact (List.mem_filter.mp hc).2
  · exact List.filter_eq_self.mpr (fun c hc => (List.mem_filter.mp hc).2)

/-- Witness for claim C10 at a concrete input: the predicates are
instantiated and the membership hypothesis discharged by evaluation. -/
theorem clean_input_idempotent_printable_witness :
    ('a' ∈ clean_input (fun c => !(c == ' ')) (fun c => c == ' ')
        (some [' ', 'a', ' ']) →
      (fun c => !(c == ' ')) 'a' = true) ∧
    clean_input (fun c => !(c == ' ')) (fun c => c == ' ')
        (some (clean_input (fun c => !(c == ' ')) (fun c => c == ' ')
          (some [' ', 'a', ' '])))
      = clean_input (fun c => !(c == ' ')) (fun c => c == ' ')
          (some [' ', 'a', ' ']) :=
  ⟨fun h => (clean_input_idempotent_printable (fun c => !(c == ' '))
      (fun c => c == ' ') [] (some [' ', 'a', ' '])).1 'a' h,
    (clean_input_idempotent_printable (fun c => !(c == ' '))
      (fun c => c == ' ') [] (some [' ', 'a', ' '])).2.1⟩

/-! ## Timestamp bounds

`feed_based.py` lines 316-327 / `trend_based_unauth.py` lines 139-151 use
optional bounds directly; `user_based.py` substitutes `datetime.min` /
`datetime.max` for an absent bound, which is equivalent for every
representable timestamp.  Timestamps are modelled as `Int` values produced
by an abstract `parse : String → Option Int`. -/

/-- `start_time is None or post_time >= start_time`. -/
def lowerOk : Option Int → Int → Bool
  | none, _ => true
  | some s, t => decide (s ≤ t)

/-- `end_time is None or post_time <= end_time`. -/
def upperOk : Option Int → Int → Bool
  | none, _ => true
  | some e, t => decide (t ≤ e)

/-- `post_time < start_time` with an absent bound substituted by
`datetime.min` (never below the minimum). -/
def belowLower : Option Int → Int → Bool
  | none, _ => false
  | some s, t => decide (t < s)

/-! ## Timestamp filter stage (claim C4)

`feed_based.py` lines 316-327 (identical loop in `trend_based_unauth.py`
lines 139-151):
```
for post in feed_posts:
    created_at_str = post.get('post', {}).get('record', {}).get('createdAt')
    if created_at_str:
        post_time = datetime.fromisoformat(created_at_str.replace("Z", "+00:00"))
        if (start_time is None or post_time >= start_time) and (end_time is None or post_time <= end_time):
            final_posts.append(post)
```
A `ValueError` raised by `fromisoformat` aborts the whole run, which the
embedding renders as `Except.error`. -/

/-- The timestamp filter loop over feed items.  A present `createdAt`
that fails to parse raises (aborting the whole filtered list); an absent
`createdAt` (or falsy empty string) is skipped. -/
def filterByTimestamp (parse : String → Option Int)
    (startT endT : Option Int) : List FeedItem → Except Unit (List FeedItem)
  | [] => Except.ok []
  | p :: rest =>
    match p.post.record.createdAt with
    | none => filterByTimestamp parse startT endT rest
    | some s =>
      if s == "" then filterByTimestamp parse startT endT rest
      else
        match parse s with
        | none => Except.error ()
        | some t =>
          match filterByTimestamp parse startT endT rest with
          | Except.error e => Except.error e
          | Except.ok tail =>
            if lowerOk startT t && upperOk endT t then Except.ok (p :: tail)
            else Except.ok tail

/-- The predicate the claim describes: `createdAt` is present (truthy) and
parses to a time inside the optional bounds. -/
def keepByTimestamp (parse : String → Option Int)
    (startT endT : Option Int) (p : FeedItem) : Bool :=
  match p.post.record.createdAt with
  | none => false
  | some s =>
    if s == "" then false
    else
      match parse s with
      | none => false
      | some t => lowerOk startT t && upperOk endT t

/-- Claim C4: when every present `createdAt` parses, the timestamp filter
returns exactly the fetched posts, in order, whose `createdAt` is present
and parses to a time within the optional bounds; a post with no
`createdAt` is excluded. -/
theorem filterByTimestamp_exact (parse : String → Option Int)
    (startT endT : Option Int) (posts : List FeedItem)
    (h : ∀ p ∈ posts, ∀ s, p.post.record.createdAt = some s → s ≠ "" →
      parse s ≠ none) :
    filterByTimestamp parse startT endT posts
      = Except.ok (posts.filter (keepByTimestamp parse startT endT)) := by
  induction posts with
  | nil => rfl
  | cons p rest ih =>
    have hrest : ∀ q ∈ rest, ∀ s, q.post.record.createdAt = some s → s ≠ "" →
        parse s ≠ none := fun q hq => h q (List.mem_cons_of_mem p hq)
    have ihr := ih hrest
    rcases hs : p.post.record.createdAt with _ | s
    · simp [filterByTimestamp, keepByTimestamp, hs, ihr, List.filter_cons]
    · by_cases hempty : s = ""
      · subst hempty
        simp [filterByTimestamp, keepByTimestamp, hs, ihr, List.filter_cons]
      · rcases hps : parse s with _ | t
        · exact absurd hps (h p (List.mem_cons_self p rest) s hs hempty)
        · by_cases hk : (lowerOk startT t && upperOk endT t) = true
          · simp [filterByTimestamp, keepByTimestamp, hs, hempty, hps, ihr,
              List.filter_cons, hk]
          · simp only [Bool.not_eq_true] at hk
            simp [filterByTimestamp, keepByTimestamp, hs, hempty, hps, ihr,
              List.filter_cons, hk]

/-- Witness for claim C4: two concrete posts, one with a `createdAt`
inside the bounds and one with no `createdAt` at all. -/
theorem filterByTimestamp_exact_witness :
    (∀ p ∈ [(⟨⟨none, ⟨some "a", []⟩⟩, []⟩ : FeedItem),
        ⟨⟨none, ⟨none, []⟩⟩, []⟩],
      ∀ s, p.post.record.createdAt = some s → s ≠ "" →
        (fun _ => some (5 : Int)) s ≠ none) ∧
    filterByTimestamp (fun _ => some (5 : Int)) (some 0) (some 10)
        [⟨⟨none, ⟨some "a", []⟩⟩, []⟩, ⟨⟨none, ⟨none, []⟩⟩, []⟩]
      = Except.ok
          (List.filter (keepByTimestamp (fun _ => some (5 : Int))
              (some 0) (some 10))
            [⟨⟨none, ⟨some "a", []⟩⟩, []⟩, ⟨⟨none, ⟨none, []⟩⟩, []⟩]) :=
  ⟨fun p _ s _ _ => by simp,
    filterByTimestamp_exact (fun _ => some (5 : Int)) (some 0) (some 10) _
      (fun p _ s _ _ => by simp)⟩

/-! ## Language filter stage (claim C5)

`search_based.py` lines 246-254:
```
lang_choice = clean_input(input(...)).lower()
if not lang_choice:
    final_posts = fetched_posts
else:
    for post in fetched_posts:
        langs = post.get('record', {}).get('langs', [])
        if langs and lang_choice in langs:
            final_posts.append(post)
```
-/

/-- The language-filter append loop of `search_based.py`. -/
def langFilterLoop (code : String) : List SearchPost → List SearchPost
  | [] => []
  | p :: rest =>
    if p.record.langs ≠ [] ∧ code ∈ p.record.langs then
      p :: langFilterLoop code rest
    else langFilterLoop code rest

/-- The language filter stage: a blank code keeps the fetched list,
otherwise the loop selects the matching posts. -/
def langFilter (code : String) (fetched : List SearchPost) : List SearchPost :=
  if code == "" then fetched else langFilterLoop code fetched

/-- The loop is the filter by "non-empty `langs` containing the code". -/
theorem langFilterLoop_eq_filter (code : String) (posts : List SearchPost) :
    langFilterLoop code posts
      = posts.filter (fun p =>
          decide (p.record.langs ≠ [] ∧ code ∈ p.record.langs)) := by
  induction posts with
  | nil => rfl
  | cons p rest ih =>
    by_cases hp : p.record.langs ≠ [] ∧ code ∈ p.record.langs
    · simp [langFilterLoop, List.filter_cons, hp, ih]
    · simp [langFilterLoop, List.filter_cons, hp, ih]

/-- Claim C5: with a non-empty language code the filter keeps exactly the
fetched posts whose `record.langs` list is non-empty and contains the
code; with a blank code the fetched list is returned unchanged. -/
theorem langFilter_exact (code : String) (fetched : List SearchPost) :
    (code = "" → langFilter code fetched = fetched) ∧
    (code ≠ "" →
      langFilter code fetched
        = fetched.filter (fun p =>
            decide (p.record.langs ≠ [] ∧ code ∈ p.record.langs))) := by
  constructor
  · intro hc
    subst hc
    simp [langFilter]
  · intro hc
    have : (code == "") = false := by simp [hc]
    rw [langFilter, this]
    simp only [Bool.false_eq_true, if_false]
    exact langFilterLoop_eq_filter code fetched

/-- Witness for claim C5: the code `en` keeps the post tagged `en` and
drops the post with an empty `langs` list. -/
theorem langFilter_exact_witness :
    ("en" ≠ "" ∧
      langFilter "en"
          [(⟨none, ⟨none, ["en", "de"]⟩, []⟩ : SearchPost),
            ⟨none, ⟨none, []⟩, []⟩, ⟨none, ⟨none, ["fr"]⟩, []⟩]
        = List.filter (fun p =>
            decide (p.record.langs ≠ [] ∧ "en" ∈ p.record.langs))
            [(⟨none, ⟨none, ["en", "de"]⟩, []⟩ : SearchPost),
              ⟨none, ⟨none, []⟩, []⟩, ⟨none, ⟨none, ["fr"]⟩, []⟩]) :=
  ⟨by decide,
    (langFilter_exact "en"
        [⟨none, ⟨none, ["en", "de"]⟩, []⟩, ⟨none, ⟨none, []⟩, []⟩,
          ⟨none, ⟨none, ["fr"]⟩, []⟩]).2 (by decide)⟩

/-! ## Session state and token refresh (claim C8)

`BlueskySession` stores `_handle`, `_password`, `access_jwt`,
`refresh_jwt`, `did` and `session_active`.

`feed_based.py` lines 85-108 (`_refresh_session`):
```
if not self.refresh_jwt: ... self.session_active = False; return False
resp = requests.post(..., headers={"Authorization": f"Bearer {self.refresh_jwt}"}, ...)
resp.raise_for_status()
data = _safe_json(resp)
self.access_jwt = data.get("accessJwt")
self.refresh_jwt = data.get("refreshJwt") or self.refresh_jwt
self.session_active = bool(self.access_jwt)
return self.session_active
```
`user_based.py` lines 57-81 differ: they index `data['accessJwt']` /
`data['refreshJwt']` directly, return `True` without touching
`session_active` on success, and set it to `False` on an HTTP error. -/

/-- Mutable state of a `BlueskySession`. -/
structure SessionState where
  handle : String
  password : String
  access_jwt : Option String
  refresh_jwt : Option String
  did : Option String
  session_active : Bool
deriving DecidableEq

/-- The request `_refresh_session` posts: only the bearer token (the
refresh JWT) distinguishes one refresh request from another; the URL is
fixed. -/
structure RefreshRequest where
  bearer : String
deriving DecidableEq

/-- Body of a successful `com.atproto.server.refreshSession` response as
read by `feed_based.py` (`data.get(...)`: absent keys are `none`). -/
structure RefreshData where
  accessJwt : Option String
  refreshJwt : Option String
deriving DecidableEq

/-- Outcome of the refresh HTTP call: a parsed 2xx body, or a raised
`requests.RequestException`. -/
inductive RefreshResult where
  | ok (d : RefreshData)
  | err
deriving DecidableEq

/-- What `_refresh_session` produces: the request it sent (if any), the
updated session state, and its boolean return value. -/
structure RefreshOutcome where
  request : Option RefreshRequest
  state : SessionState
  success : Bool
deriving DecidableEq

/-- `_refresh_session` of `feed_based.py`.  `data.get("refreshJwt") or
self.refresh_jwt` keeps the old refresh token when the response omits it
or sends a falsy one; `session_active` becomes the truthiness of the new
access token. -/
def refresh_session (st : SessionState) (r : RefreshResult) : RefreshOutcome :=
  match st.refresh_jwt with
  | none => ⟨none, { st with session_active := false }, false⟩
  | some rj =>
    if rj == "" then ⟨none, { st with session_active := false }, false⟩
    else
      match r with
      | RefreshResult.ok d =>
        let access := d.accessJwt
        let refresh := if pyTruthy d.refreshJwt then d.refreshJwt else some rj
        let active := pyTruthy access
        let st2 := { st with access_jwt := access, refresh_jwt := refresh, session_active := active }
        ⟨some ⟨rj⟩, st2, active⟩
      | RefreshResult.err =>
        ⟨some ⟨rj⟩, { st with session_active := false }, false⟩

/-- Body of a refresh response as read by `user_based.py`: direct
indexing, so both tokens must be present. -/
structure RefreshDataU where
  accessJwt : String
  refreshJwt : String
deriving DecidableEq

/-- Refresh HTTP outcome for the `user_based.py` variant. -/
inductive RefreshResultU where
  | ok (d : RefreshDataU)
  | err
deriving DecidableEq

/-- `_refresh_session` of `user_based.py`: on success it overwrites both
tokens and returns `True` without touching `session_active`; on an HTTP
error it sets `session_active` to `False`. -/
def refresh_session_user (st : SessionState) (r : RefreshResultU) :
    RefreshOutcome :=
  match st.refresh_jwt with
  | none => ⟨none, { st with session_active := false }, false⟩
  | some rj =>
    if rj == "" then ⟨none, { st with session_active := false }, false⟩
    else
      match r with
      | RefreshResultU.ok d =>
        let st2 := { st with access_jwt := some d.accessJwt, refresh_jwt := some d.refreshJwt }
        ⟨some ⟨rj⟩, st2, true⟩
      | RefreshResultU.err =>
        ⟨some ⟨rj⟩, { st with session_active := false }, false⟩

/-- The token-relevant projection of a session state: everything except
the stored handle and password. -/
def tokenState (st : SessionState) :
    Option String × Option String × Option String × Bool :=
  (st.access_jwt, st.refresh_jwt, st.did, st.session_active)

/-- Claim C8: refreshing depends only on the stored tokens, never on the
handle or password.  Replacing the handle and password of a session by
arbitrary values changes neither the refresh request issued, nor the
resulting token state, nor the returned boolean — for both the
`feed_based.py` and the `user_based.py` variants. -/
theorem refresh_session_ignores_credentials (st : SessionState)
    (h pw : String) (r : RefreshResult) (ru : RefreshResultU) :
    (refresh_session { st with handle := h, password := pw } r).request
        = (refresh_session st r).request ∧
    tokenState (refresh_session { st with handle := h, password := pw } r).state
        = tokenState (refresh_session st r).state ∧
    (refresh_session { st with handle := h, password := pw } r).success
        = (refresh_session st r).success ∧
    (refresh_session_user { st with handle := h, password := pw } ru).request
        = (refresh_session_user st ru).request ∧
    tokenState
        (refresh_session_user { st with handle := h, password := pw } ru).state
        = tokenState (refresh_session_user st ru).state ∧
    (refresh_session_user { st with handle := h, password := pw } ru).success
        = (refresh_session_user st ru).success := by
  rcases st with ⟨h0, pw0, aj, rj, did, act⟩
  rcases rj with _ | rj
  · cases r <;> cases ru <;>
      simp [refresh_session, refresh_session_user, tokenState]
  · by_cases hrj : rj = "" <;> cases r <;> cases ru <;>
      simp [refresh_session, refresh_session_user, tokenState, hrj]

/-! ## Authenticated request wrapper (claim C1)

`feed_based.py` lines 110-138 (`_make_request`): raises if the session is
inactive, sends the request with `Authorization: Bearer <access_jwt>`,
returns the parsed body on success; on an `HTTPError` whose body's
`error` field contains `"ExpiredToken"` and when `is_retry` is false it
refreshes and retries once with `is_retry=True`, otherwise it raises.
`user_based.py` lines 83-109 differ in the trigger (`status == 400 and
error == 'ExpiredToken'`) but have the same retry discipline.

The embedding replaces the `is_retry` flag by a retry budget `fuel`
(`1` = fresh call, `0` = the retried call); the response to the attempt
with budget `n` is the oracle value `resp n`, so the fresh request reads
`resp 1` and the retried request reads `resp 0`. -/

/-- Result of one HTTP attempt: parsed 2xx body, an `HTTPError` carrying
the status and the decoded `error`/`message` fields, or another
`RequestException`. -/
inductive HttpResult (α : Type) where
  | ok (data : α)
  | httpError (status : Nat) (errcode : String) (msg : String)
  | netError (msg : String)
deriving DecidableEq

/-- Oracle for one `_make_request` call chain of `feed_based.py`:
responses to the main request attempts, and the outcome of the (at most
one) refresh call. -/
structure RequestWorld (α : Type) where
  resp : Nat → HttpResult α
  refreshResp : RefreshResult

/-- Oracle for one `_make_request` call chain of `user_based.py`. -/
structure RequestWorldU (α : Type) where
  resp : Nat → HttpResult α
  refreshResp : RefreshResultU

/-- Observable outcome of a `_make_request` call chain: the returned
value or raised error, the trace of attempts actually sent (request data
paired with the bearer token used), the number of refresh calls made, and
the final session state. -/
structure ReqOutcome (α ρ : Type) where
  result : Except String α
  attempts : List (ρ × Option String)
  refreshAttempts : Nat
  finalState : SessionState

/-- The `feed_based.py` expired-token test: `"ExpiredToken" in errcode`
(substring containment). -/
def hasExpiredToken (code : String) : Bool :=
  decide ("ExpiredToken".toList <:+: code.toList)

/-- The `user_based.py` expired-token test:
`status_code == 400 and error == 'ExpiredToken'`. -/
def isExpired400 (status : Nat) (code : String) : Bool :=
  status == 400 && code == "ExpiredToken"

/-- `_make_request` of `feed_based.py`.  The two equations are the two
values of the `is_retry` flag: budget `f+1` is a fresh call (may refresh
and retry once), budget `0` is the retried call, whose expired-token
branch is disabled by `is_retry=True`. -/
def make_request {α ρ : Type} (w : RequestWorld α) (reqData : ρ) :
    SessionState → Nat → ReqOutcome α ρ
  | st, 0 =>
    if st.session_active = false then
      ⟨Except.error "Session is not active. Please create a session first.", [], 0, st⟩
    else
      let attempt := (reqData, st.access_jwt)
      match w.resp 0 with
      | HttpResult.ok d => ⟨Except.ok d, [attempt], 0, st⟩
      | HttpResult.netError m =>
        ⟨Except.error ("Network error: " ++ m), [attempt], 0, st⟩
      | HttpResult.httpError _ _ msg =>
        ⟨Except.error ("HTTP error: " ++ msg), [attempt], 0, st⟩
  | st, f + 1 =>
    if st.session_active = false then
      ⟨Except.error "Session is not active. Please create a session first.", [], 0, st⟩
    else
      let attempt := (reqData, st.access_jwt)
      match w.resp (f + 1) with
      | HttpResult.ok d => ⟨Except.ok d, [attempt], 0, st⟩
      | HttpResult.netError m =>
        ⟨Except.error ("Network error: " ++ m), [attempt], 0, st⟩
      | HttpResult.httpError _ code msg =>
        if hasExpiredToken code then
          let ro := refresh_session st w.refreshResp
          if ro.success then
            let inner := make_request w reqData ro.state f
            ⟨inner.result, attempt :: inner.attempts,
              inner.refreshAttempts + 1, inner.finalState⟩
          else ⟨Except.error ("HTTP error: " ++ msg), [attempt], 1, ro.state⟩
        else ⟨Except.error ("HTTP error: " ++ msg), [attempt], 0, st⟩

/-- `_make_request` of `user_based.py`, with the same budget encoding of
`is_retry`. -/
def make_request_user {α ρ : Type} (w : RequestWorldU α) (reqData : ρ) :
    SessionState → Nat → ReqOutcome α ρ
  | st, 0 =>
    if st.session_active = false then
      ⟨Except.error "Session is not active. Please create a session first.", [], 0, st⟩
    else
      let attempt := (reqData, st.access_jwt)
      match w.resp 0 with
      | HttpResult.ok d => ⟨Except.ok d, [attempt], 0, st⟩
      | HttpResult.netError m =>
        ⟨Except.error ("RequestException: " ++ m), [attempt], 0, st⟩
      | HttpResult.httpError _ _ msg =>
        ⟨Except.error ("HTTPError: " ++ msg), [attempt], 0, st⟩
  | st, f + 1 =>
    if st.session_active = false then
      ⟨Except.error "Session is not active. Please create a session first.", [], 0, st⟩
    else
      let attempt := (reqData, st.access_jwt)
      match w.resp (f + 1) with
      | HttpResult.ok d => ⟨Except.ok d, [attempt], 0, st⟩
      | HttpResult.netError m =>
        ⟨Except.error ("RequestException: " ++ m), [attempt], 0, st⟩
      | HttpResult.httpError status code msg =>
        if isExpired400 status code then
          let ro := refresh_session_user st w.refreshResp
          if ro.success then
            let inner := make_request_user w reqData ro.state f
            ⟨inner.result, attempt :: inner.attempts,
              inner.refreshAttempts + 1, inner.finalState⟩
          else ⟨Except.error ("HTTPError: " ++ msg), [attempt], 1, ro.state⟩
        else ⟨Except.error ("HTTPError: " ++ msg), [attempt], 0, st⟩

/-- Refresh and retry counts are bounded by the retry budget. -/
theorem make_request_bounds {α ρ : Type} (w : RequestWorld α) (req : ρ) :
    ∀ (fuel : Nat) (st : SessionState),
      (make_request w req st fuel).refreshAttempts ≤ fuel ∧
      (make_request w req st fuel).attempts.length ≤ fuel + 1 := by
  intro fuel
  induction fuel with
  | zero =>
    intro st
    cases hact : st.session_active <;>
      cases hresp : w.resp 0 <;>
        simp [make_request, hact, hresp]
  | succ f ih =>
    intro st
    cases hact : st.session_active
    · simp [make_request, hact]
    · cases hresp : w.resp (f + 1) with
      | ok d => simp [make_request, hact, hresp]
      | netError m => simp [make_request, hact, hresp]
      | httpError s c m =>
        cases hexp : hasExpiredToken c
        · simp [make_request, hact, hresp, hexp]
        · cases hsucc : (refresh_session st w.refreshResp).success
          · simp [make_request, hact, hresp, hexp, hsucc]
          · have hin := ih (refresh_session st w.refreshResp).state
            simp only [make_request, hact, hresp, hexp, hsucc,
              Bool.true_eq_false, if_false, if_true]
            constructor
            · omega
            · simp only [List.length_cons]
              omega

/-- Same bounds for the `user_based.py` variant. -/
theorem make_request_user_bounds {α ρ : Type} (w : RequestWorldU α) (req : ρ) :
    ∀ (fuel : Nat) (st : SessionState),
      (make_request_user w req st fuel).refreshAttempts ≤ fuel ∧
      (make_request_user w req st fuel).attempts.length ≤ fuel + 1 := by
  intro fuel
  induction fuel with
  | zero =>
    intro st
    cases hact : st.session_active <;>
      cases hresp : w.resp 0 <;>
        simp [make_request_user, hact, hresp]
  | succ f ih =>
    intro st
    cases hact : st.session_active
    · simp [make_request_user, hact]
    · cases hresp : w.resp (f + 1) with
      | ok d => simp [make_request_user, hact, hresp]
      | netError m => simp [make_request_user, hact, hresp]
      | httpError s c m =>
        cases hexp : isExpired400 s c
        · simp [make_request_user, hact, hresp, hexp]
        · cases hsucc : (refresh_session_user st w.refreshResp).success
          · simp [make_request_user, hact, hresp, hexp, hsucc]
          · have hin := ih (refresh_session_user st w.refreshResp).state
            simp only [make_request_user, hact, hresp, hexp, hsucc,
              Bool.true_eq_false, if_false, if_true]
            constructor
            · omega
            · simp only [List.length_cons]
              omega

/-- In `feed_based.py`, `_refresh_session` returns exactly the
`session_active` flag it stored. -/
theorem refresh_session_state_active (st : SessionState) (r : RefreshResult) :
    (refresh_session st r).state.session_active = (refresh_session st r).success := by
  rcases st with ⟨h0, pw0, aj, rj, did, act⟩
  rcases rj with _ | rj
  · cases r <;> simp [refresh_session]
  · by_cases hrj : rj = "" <;> cases r <;> simp [refresh_session, hrj]

/-- In `user_based.py`, a successful `_refresh_session` leaves
`session_active` untouched. -/
theorem refresh_session_user_state_active (st : SessionState)
    (r : RefreshResultU) (h : (refresh_session_user st r).success = true) :
    (refresh_session_user st r).state.session_active = st.session_active := by
  rcases st with ⟨h0, pw0, aj, rj, did, act⟩
  rcases rj with _ | rj
  · cases r <;> simp [refresh_session_user] at h ⊢
  · by_cases hrj : rj = "" <;> cases r <;>
      simp [refresh_session_user, hrj] at h ⊢

/-- Behaviour of the retried call (budget `0`): exactly one attempt with
the current bearer token, no refresh, and the response decides the
outcome. -/
theorem make_request_zero_spec {α ρ : Type} (w : RequestWorld α) (req : ρ)
    (st : SessionState) (h : st.session_active = true) :
    (make_request w req st 0).attempts = [(req, st.access_jwt)] ∧
    (make_request w req st 0).refreshAttempts = 0 ∧
    (∀ d, w.resp 0 = HttpResult.ok d →
      (make_request w req st 0).result = Except.ok d) ∧
    (∀ s c m, w.resp 0 = HttpResult.httpError s c m →
      ∃ e, (make_request w req st 0).result = Except.error e) := by
  cases hresp : w.resp 0 <;> simp [make_request, h, hresp]

/-- Same for the `user_based.py` variant. -/
theorem make_request_user_zero_spec {α ρ : Type} (w : RequestWorldU α)
    (req : ρ) (st : SessionState) (h : st.session_active = true) :
    (make_request_user w req st 0).attempts = [(req, st.access_jwt)] ∧
    (make_request_user w req st 0).refreshAttempts = 0 ∧
    (∀ d, w.resp 0 = HttpResult.ok d →
      (make_request_user w req st 0).result = Except.ok d) ∧
    (∀ s c m, w.resp 0 = HttpResult.httpError s c m →
      ∃ e, (make_request_user w req st 0).result = Except.error e) := by
  cases hresp : w.resp 0 <;> simp [make_request_user, h, hresp]

/-- Claim C1: `_make_request` refreshes and retries the same request
exactly once on an expired-token HTTP error, and never more.  For a fresh
call (budget `1`): the refresh count and the attempt count are bounded by
one and two; when the first response is an expired-token HTTP error and
the refresh succeeds, exactly one refresh happens and the same request
data is sent exactly twice (first with the old bearer token, then with
the refreshed one), after which the second response alone decides the
outcome — a second failure propagates as an error with no further
refresh; when the refresh fails, the error propagates after a single
attempt.  Both the `feed_based.py` and `user_based.py` variants are
covered. -/
theorem make_request_refresh_retry_once {α ρ : Type} (w : RequestWorld α)
    (wu : RequestWorldU α) (req : ρ) (st : SessionState) :
    ((make_request w req st 1).refreshAttempts ≤ 1 ∧
      (make_request w req st 1).attempts.length ≤ 2 ∧
      (make_request_user wu req st 1).refreshAttempts ≤ 1 ∧
      (make_request_user wu req st 1).attempts.length ≤ 2) ∧
    (∀ status code msg, st.session_active = true →
      w.resp 1 = HttpResult.httpError status code msg →
      hasExpiredToken code = true →
      (refresh_session st w.refreshResp).success = true →
      (make_request w req st 1).refreshAttempts = 1 ∧
      (make_request w req st 1).attempts
        = [(req, st.access_jwt),
            (req, (refresh_session st w.refreshResp).state.access_jwt)] ∧
      (∀ d, w.resp 0 = HttpResult.ok d →
        (make_request w req st 1).result = Except.ok d) ∧
      (∀ s2 c2 m2, w.resp 0 = HttpResult.httpError s2 c2 m2 →
        ∃ e, (make_request w req st 1).result = Except.error e)) ∧
    (∀ status code msg, st.session_active = true →
      w.resp 1 = HttpResult.httpError status code msg →
      hasExpiredToken code = true →
      (refresh_session st w.refreshResp).success = false →
      (make_request w req st 1).refreshAttempts = 1 ∧
      (make_request w req st 1).attempts.length = 1 ∧
      ∃ e, (make_request w req st 1).result = Except.error e) ∧
    (∀ status code msg, st.session_active = true →
      wu.resp 1 = HttpResult.httpError status code msg →
      isExpired400 status code = true →
      (refresh_session_user st wu.refreshResp).success = true →
      (make_request_user wu req st 1).refreshAttempts = 1 ∧
      (make_request_user wu req st 1).attempts
        = [(req, st.access_jwt),
            (req, (refresh_session_user st wu.refreshResp).state.access_jwt)] ∧
      (∀ d, wu.resp 0 = HttpResult.ok d →
        (make_request_user wu req st 1).result = Except.ok d) ∧
      (∀ s2 c2 m2, wu.resp 0 = HttpResult.httpError s2 c2 m2 →
        ∃ e, (make_request_user wu req st 1).result = Except.error e)) ∧
    (∀ status code msg, st.session_active = true →
      wu.resp 1 = HttpResult.httpError status code msg →
      isExpired400 status code = true →
      (refresh_session_user st wu.refreshResp).success = false →
      (make_request_user wu req st 1).refreshAttempts = 1 ∧
      (make_request_user wu req st 1).attempts.length = 1 ∧
      ∃ e, (make_request_user wu req st 1).result = Except.error e) := by
  refine ⟨⟨(make_request_bounds w req 1 st).1, (make_request_bounds w req 1 st).2,
    (make_request_user_bounds wu req 1 st).1,
    (make_request_user_bounds wu req 1 st).2⟩, ?_, ?_, ?_, ?_⟩
  · intro status code msg hact hresp hexp hsucc
    have hact2 : (refresh_session st w.refreshResp).state.session_active = true := by
      rw [refresh_session_state_active]; exact hsucc
    have hz := make_request_zero_spec w req (refresh_session st w.refreshResp).state hact2
    have hunfold : make_request w req st 1
        = ⟨(make_request w req (refresh_session st w.refreshResp).state 0).result,
            (req, st.access_jwt)
              :: (make_request w req (refresh_session st w.refreshResp).state 0).attempts,
            (make_request w req (refresh_session st w.refreshResp).state 0).refreshAttempts + 1,
            (make_request w req (refresh_session st w.refreshResp).state 0).finalState⟩ := by
      simp [make_request, hact, hresp, hexp, hsucc]
    refine ⟨?_, ?_, ?_, ?_⟩
    · rw [hunfold]; simp [hz.2.1]
    · rw [hunfold]; simp [hz.1]
    · intro d hd
      rw [hunfold]
      simpa using hz.2.2.1 d hd
    · intro s2 c2 m2 hd
      obtain ⟨e, he⟩ := hz.2.2.2 s2 c2 m2 hd
      exact ⟨e, by rw [hunfold]; simpa using he⟩
  · intro status code msg hact hresp hexp hsucc
    refine ⟨?_, ?_, ?_⟩ <;> simp [make_request, hact, hresp, hexp, hsucc]
  · intro status code msg hact hresp hexp hsucc
    have hact2 : (refresh_session_user st wu.refreshResp).state.session_active = true := by
      rw [refresh_session_user_state_active st wu.refreshResp hsucc]; exact hact
    have hz := make_request_user_zero_spec wu req
      (refresh_session_user st wu.refreshResp).state hact2
    have hunfold : make_request_user wu req st 1
        = ⟨(make_request_user wu req (refresh_session_user st wu.refreshResp).state 0).result,
            (req, st.access_jwt)
              :: (make_request_user wu req (refresh_session_user st wu.refreshResp).state 0).attempts,
            (make_request_user wu req (refresh_session_user st wu.refreshResp).state 0).refreshAttempts + 1,
            (make_request_user wu req (refresh_session_user st wu.refreshResp).state 0).finalState⟩ := by
      simp [make_request_user, hact, hresp, hexp, hsucc]
    refine ⟨?_, ?_, ?_, ?_⟩
    · rw [hunfold]; simp [hz.2.1]
    · rw [hunfold]; simp [hz.1]
    · intro d hd
      rw [hunfold]
      simpa using hz.2.2.1 d hd
    · intro s2 c2 m2 hd
      obtain ⟨e, he⟩ := hz.2.2.2 s2 c2 m2 hd
      exact ⟨e, by rw [hunfold]; simpa using he⟩
  · intro status code msg hact hresp hexp hsucc
    refine ⟨?_, ?_, ?_⟩ <;> simp [make_request_user, hact, hresp, hexp, hsucc]

/-- Concrete oracle for the claim C1 witness: the fresh attempt gets an
expired-token error, the refresh succeeds, the retried attempt succeeds. -/
def c1World : RequestWorld Nat :=
  ⟨fun fuel => if fuel == 1 then HttpResult.httpError 400 "ExpiredToken" "expired"
    else HttpResult.ok 7,
    RefreshResult.ok ⟨some "newacc", some "newref"⟩⟩

/-- Concrete oracle for the `user_based.py` half of the claim C1 witness. -/
def c1WorldU : RequestWorldU Nat :=
  ⟨fun _ => HttpResult.ok 7, RefreshResultU.err⟩

/-- Concrete session state for the claim C1 witness. -/
def c1State : SessionState :=
  ⟨"handle", "password", some "acc", some "ref", none, true⟩

/-- Witness for claim C1: on the concrete oracle the expired-token error
triggers exactly one refresh, the request is re-sent once with the new
token, and the retried response's value is returned. -/
theorem make_request_refresh_retry_once_witness :
    c1State.session_active = true ∧
    c1World.resp 1 = HttpResult.httpError 400 "ExpiredToken" "expired" ∧
    hasExpiredToken "ExpiredToken" = true ∧
    (refresh_session c1State c1World.refreshResp).success = true ∧
    (make_request c1World "endpoint" c1State 1).refreshAttempts = 1 ∧
    (make_request c1World "endpoint" c1State 1).attempts
      = [("endpoint", c1State.access_jwt),
          ("endpoint", (refresh_session c1State c1World.refreshResp).state.access_jwt)] ∧
    (make_request c1World "endpoint" c1State 1).result = Except.ok 7 :=
  ⟨rfl, by decide, by decide, by decide,
    ((make_request_refresh_retry_once c1World c1WorldU "endpoint" c1State).2.1
      400 "ExpiredToken" "expired" rfl (by decide) (by decide) (by decide)).1,
    ((make_request_refresh_retry_once c1World c1WorldU "endpoint" c1State).2.1
      400 "ExpiredToken" "expired" rfl (by decide) (by decide) (by decide)).2.1,
    ((make_request_refresh_retry_once c1World c1WorldU "endpoint" c1State).2.1
      400 "ExpiredToken" "expired" rfl (by decide) (by decide) (by decide)).2.2.1
      7 (by decide)⟩

/-! ## Thread enrichment (claim C3)

`feed_based.py` lines 140-148 (`get_post_thread`) and 235-249
(`fetch_comments_and_replies`):
```
params = {"uri": post_uri, "depth": 2}
data = self._make_request("GET", "app.bsky.feed.getPostThread", params=params)
return data.get('thread', {})
...
post_uri = post_item.get('post', {}).get('uri')
if not post_uri: return post_item
thread = session.get_post_thread(post_uri)
if thread and 'replies' in thread:
    for comment_thread in thread['replies'][:MAX_COMMENTS_PER_POST]:
        comment_post = comment_thread.get('post', {})
        structured_comment = {"post": comment_post, "replies": []}
        if 'replies' in comment_thread:
            for reply_thread in comment_thread['replies']:
                structured_comment["replies"].append(reply_thread.get('post', {}))
        post_item['comments'].append(structured_comment)
return post_item
```
A thread view node is a dict that may carry a `post` and a `replies` key;
the condition `thread and 'replies' in thread` holds exactly when the
fetched node exists and has a `replies` key (a dict with a `replies` key
is never the falsy `{}`). -/

/-- `MAX_COMMENTS_PER_POST` of the scripts. -/
def MAX_COMMENTS_PER_POST : Nat := 150

/-- A node of the thread view returned by `app.bsky.feed.getPostThread`:
an optional `post` field and an optional `replies` key. -/
inductive ThreadNode where
  | mk (post : Option PostView) (replies : Option (List ThreadNode))

/-- The `post` field of a thread node (`none` when the key is absent). -/
def ThreadNode.post : ThreadNode → Option PostView
  | ThreadNode.mk p _ => p

/-- The `replies` field of a thread node (`none` when the key is absent). -/
def ThreadNode.replies : ThreadNode → Option (List ThreadNode)
  | ThreadNode.mk _ r => r

/-- The request `get_post_thread` issues for a post URI: the `depth`
parameter is the literal `2`. -/
structure ThreadRequest where
  uri : String
  depth : Nat
deriving DecidableEq

/-- `get_post_thread` builds its request with `depth: 2`. -/
def get_post_thread_request (postUri : String) : ThreadRequest :=
  ⟨postUri, 2⟩

/-- `get_post_thread`: issue the depth-2 request and return the fetched
thread node; `none` models both a raised exception (caught and turned
into `None`) and the `{}`-or-missing `thread` key collapsing to a node
with no fields. -/
def get_post_thread (oracle : ThreadRequest → Option ThreadNode)
    (postUri : String) : Option ThreadNode :=
  oracle (get_post_thread_request postUri)

/-- One structured comment built from a top-level comment thread node. -/
def structureComment (t : ThreadNode) : StructuredComment :=
  { post := t.post.getD defaultPostView,
    replies :=
      match t.replies with
      | none => []
      | some rs => rs.map (fun r => r.post.getD defaultPostView) }

/-- `fetch_comments_and_replies` of `feed_based.py`. -/
def fetch_comments_and_replies (oracle : ThreadRequest → Option ThreadNode)
    (item : FeedItem) : FeedItem :=
  match item.post.uri with
  | none => item
  | some uri =>
    if uri == "" then item
    else
      match get_post_thread oracle uri with
      | none => item
      | some t =>
        match t.replies with
        | none => item
        | some reps =>
          { item with
            comments := item.comments
              ++ (reps.take MAX_COMMENTS_PER_POST).map structureComment }

/-- Claim C3: for a post with a (truthy) URI the enrichment requests its
reply tree at depth exactly 2 and rewrites `comments` to the structured
top-level comments, at most `MAX_COMMENTS_PER_POST` of them, each pairing
the comment's post with the list of its replies' posts; a post with no
URI, a failed fetch, or a thread without a `replies` key leaves the
(empty) `comments` list unchanged; in every case at most
`MAX_COMMENTS_PER_POST` comments result. -/
theorem fetch_comments_shape (oracle : ThreadRequest → Option ThreadNode)
    (item : FeedItem) (hc : item.comments = []) :
    (pyTruthy item.post.uri = false →
      fetch_comments_and_replies oracle item = item) ∧
    (∀ uri, item.post.uri = some uri → uri ≠ "" →
      (get_post_thread_request uri).depth = 2 ∧
      (get_post_thread oracle uri = none →
        fetch_comments_and_replies oracle item = item) ∧
      (∀ t, get_post_thread oracle uri = some t → t.replies = none →
        fetch_comments_and_replies oracle item = item) ∧
      (∀ t reps, get_post_thread oracle uri = some t → t.replies = some reps →
        fetch_comments_and_replies oracle item
          = { item with
              comments := (reps.take MAX_COMMENTS_PER_POST).map structureComment })) ∧
    (fetch_comments_and_replies oracle item).comments.length
      ≤ MAX_COMMENTS_PER_POST := by
  refine ⟨?_, ?_, ?_⟩
  · intro htruthy
    rcases huri : item.post.uri with _ | uri
    · simp [fetch_comments_and_replies, huri]
    · rw [huri] at htruthy
      simp only [pyTruthy, Bool.not_eq_eq_eq_not, Bool.not_false] at htruthy
      simp [fetch_comments_and_replies, huri, htruthy]
  · intro uri huri hne
    refine ⟨rfl, ?_, ?_, ?_⟩
    · intro hth
      simp [fetch_comments_and_replies, huri, hne, hth]
    · intro t hth hrep
      simp [fetch_comments_and_replies, huri, hne, hth, hrep]
    · intro t reps hth hrep
      simp [fetch_comments_and_replies, huri, hne, hth, hrep, hc]
  · rcases huri : item.post.uri with _ | uri
    · simp [fetch_comments_and_replies, huri, hc]
    · by_cases hne : uri = ""
      · subst hne
        simp [fetch_comments_and_replies, huri, hc]
      · rcases hth : get_post_thread oracle uri with _ | t
        · simp [fetch_comments_and_replies, huri, hne, hth, hc]
        · rcases hrep : t.replies with _ | reps
          · simp [fetch_comments_and_replies, huri, hne, hth, hrep, hc]
          · simp only [fetch_comments_and_replies, huri, hne, hth, hrep, hc]
            simp [hne, List.length_take]

/-- Concrete thread reply node for the claim C3 witness. -/
def c3Reply : ThreadNode :=
  ThreadNode.mk (some ⟨some "r1", ⟨none, []⟩⟩) none

/-- Concrete top-level comment node for the claim C3 witness. -/
def c3Comment : ThreadNode :=
  ThreadNode.mk (some ⟨some "c1", ⟨none, []⟩⟩) (some [c3Reply])

/-- Concrete fetched thread for the claim C3 witness. -/
def c3Node : ThreadNode :=
  ThreadNode.mk none (some [c3Comment])

/-- Concrete thread oracle for the claim C3 witness. -/
def c3Oracle : ThreadRequest → Option ThreadNode :=
  fun r => if r = ⟨"u1", 2⟩ then some c3Node else none

/-- Concrete feed item for the claim C3 witness. -/
def c3Item : FeedItem := ⟨⟨some "u1", ⟨none, []⟩⟩, []⟩

/-- Witness for claim C3 at a concrete post and thread. -/
theorem fetch_comments_shape_witness :
    c3Item.comments = [] ∧
    c3Item.post.uri = some "u1" ∧
    "u1" ≠ "" ∧
    get_post_thread c3Oracle "u1" = some c3Node ∧
    c3Node.replies = some [c3Comment] ∧
    fetch_comments_and_replies c3Oracle c3Item
      = { c3Item with
          comments := ([c3Comment].take MAX_COMMENTS_PER_POST).map structureComment } :=
  ⟨rfl, rfl, by decide, rfl, rfl,
    ((fetch_comments_shape c3Oracle c3Item rfl).2.1 "u1" rfl
      (by decide)).2.2.2 c3Node [c3Comment] rfl rfl⟩

/-! ## Persistence (claim C6)

`feed_based.py` lines 351-364:
```
timestamp = datetime.now().strftime("%Y-%m-%d_%H-%M-%S")
safe_name = safe_filename(feed_name)
output_dir = "feed_model"
os.makedirs(output_dir, exist_ok=True)
filename = os.path.join(output_dir, f"feed_{safe_name}_{timestamp}.json")
...
json.dump(final_posts, f, ensure_ascii=False, indent=2)
```
with `safe_filename` from lines 229-233; `user_based.py` lines 336-351
use `output_dir = "user_model"` and
`f"posts_{target_handle.replace('.', '_')}_{timestamp}.json"`.
The file write is modelled as the `SaveAction` value describing the
`open`/`json.dump` call; the save only happens when the final collection
is non-empty (`if final_posts:`). -/

/-- `safe_filename` of `feed_based.py`: keep alphanumerics, spaces,
underscores and hyphens, strip, replace spaces by underscores, truncate
to 40 characters, and fall back to `"feed"` when empty.  `isalnum` and
the whitespace class are abstract predicates. -/
def safe_filename (isalnum ws : Char → Bool) (base : List Char) : List Char :=
  let base2 := if base = [] then "feed".toList else base
  let cleaned := pyStrip ws
    (base2.filter (fun c => isalnum c || c = ' ' || c = '_' || c = '-'))
  let renamed := (cleaned.map (fun c => if c = ' ' then '_' else c)).take 40
  if renamed = [] then "feed".toList else renamed

/-- The `open(filename, 'w')` + `json.dump(..., ensure_ascii=False,
indent=2)` call, by its parameters. -/
structure SaveAction where
  path : String
  indent : Nat
  ensureAscii : Bool
deriving DecidableEq

/-- `os.path.join(dir, name)` for the relative names these scripts build. -/
def osJoin (dir name : String) : String :=
  dir ++ "/" ++ name

/-- The save step of `feed_based.py`: nothing is written for an empty
collection; otherwise one pretty-printed JSON file goes under
`feed_model`. -/
def feedSave (isalnum ws : Char → Bool) (finalPosts : List FeedItem)
    (feedName : List Char) (timestamp : String) : Option SaveAction :=
  if finalPosts.isEmpty then none
  else
    some ⟨osJoin "feed_model"
        ("feed_" ++ String.mk (safe_filename isalnum ws feedName) ++ "_"
          ++ timestamp ++ ".json"),
      2, false⟩

/-- The save step of `user_based.py`. -/
def userSave (finalPosts : List FeedItem) (targetHandle : String)
    (timestamp : String) : Option SaveAction :=
  if finalPosts.isEmpty then none
  else
    some ⟨osJoin "user_model"
        ("posts_" ++ targetHandle.replace "." "_" ++ "_" ++ timestamp ++ ".json"),
      2, false⟩

/-- Claim C6: with a non-empty final collection the run writes exactly one
file, as indent-2 JSON, whose path lies under the script's fixed output
directory and whose file name embeds the timestamp — for both the
`feed_based.py` (`feed_model`) and `user_based.py` (`user_model`)
variants. -/
theorem save_path_properties (isalnum ws : Char → Bool)
    (posts : List FeedItem) (feedName : List Char) (handle timestamp : String)
    (hne : posts ≠ []) :
    (∃ act, feedSave isalnum ws posts feedName timestamp = some act ∧
      act.indent = 2 ∧
      (∃ rest, act.path = "feed_model/" ++ rest) ∧
      (∃ pre suf, act.path = pre ++ timestamp ++ suf)) ∧
    (∃ act, userSave posts handle timestamp = some act ∧
      act.indent = 2 ∧
      (∃ rest, act.path = "user_model/" ++ rest) ∧
      (∃ pre suf, act.path = pre ++ timestamp ++ suf)) := by
  have hne2 : posts.isEmpty = false := by
    simpa using hne
  constructor
  · rw [feedSave, hne2]
    simp only [Bool.false_eq_true, if_false]
    refine ⟨_, rfl, rfl, ?_, ?_⟩
    · refine ⟨"feed_" ++ String.mk (safe_filename isalnum ws feedName) ++ "_"
        ++ timestamp ++ ".json", ?_⟩
      show osJoin "feed_model" _ = _
      rw [osJoin]
      have hlit : "feed_model" ++ "/" = "feed_model/" := rfl
      rw [hlit]
    · refine ⟨"feed_model" ++ "/" ++ ("feed_"
        ++ String.mk (safe_filename isalnum ws feedName) ++ "_"), ".json", ?_⟩
      show osJoin "feed_model" _ = _
      rw [osJoin]
      simp only [String.append_assoc]
  · rw [userSave, hne2]
    simp only [Bool.false_eq_true, if_false]
    refine ⟨_, rfl, rfl, ?_, ?_⟩
    · refine ⟨"posts_" ++ String.replace handle "." "_" ++ "_"
        ++ timestamp ++ ".json", ?_⟩
      show osJoin "user_model" _ = _
      rw [osJoin]
      have hlit : "user_model" ++ "/" = "user_model/" := rfl
      rw [hlit]
    · refine ⟨"user_model" ++ "/" ++ ("posts_"
        ++ String.replace handle "." "_" ++ "_"), ".json", ?_⟩
      show osJoin "user_model" _ = _
      rw [osJoin]
      simp only [String.append_assoc]

/-- Witness for claim C6 at a concrete collection and timestamp. -/
theorem save_path_properties_witness :
    ([(⟨⟨none, ⟨none, []⟩⟩, []⟩ : FeedItem)] ≠ [] ∧
      ∃ act, feedSave (fun _ => true) (fun c => c == ' ')
          [⟨⟨none, ⟨none, []⟩⟩, []⟩] "my feed".toList "2024-01-01_00-00-00"
        = some act ∧ act.indent = 2 ∧
        (∃ rest, act.path = "feed_model/" ++ rest) ∧
        (∃ pre suf, act.path = pre ++ "2024-01-01_00-00-00" ++ suf)) :=
  ⟨by decide,
    (save_path_properties (fun _ => true) (fun c => c == ' ')
      [⟨⟨none, ⟨none, []⟩⟩, []⟩] "my feed".toList "h.x" "2024-01-01_00-00-00"
      (by decide)).1⟩

/-! ## Cursor pagination (claims C2 and C7)

`feed_based.py` lines 173-204 (`get_custom_feed`), `search_based.py`
lines 123-167 (`search_posts_advanced`) and `trend_based_unauth.py`
lines 44-90 (`get_whats_hot_classic`) all run the same loop:
```
all_posts = []
cursor = None
while len(all_posts) < max_posts:
    limit = min(100, max_posts - len(all_posts))
    if limit <= 0: break
    params = {..., "limit": limit}
    if cursor: params["cursor"] = cursor
    try:
        data = <request>(params)          # error -> break
        posts_on_page = data.get(...) or []
        if not posts_on_page: break
        for post in posts_on_page: post['comments'] = []
        all_posts.extend(posts_on_page)
        cursor = data.get("cursor")
        if not cursor: break
    except Exception: break
return all_posts
```
The embedding records the trace of page requests (limit, cursor sent, and
the number of posts collected before the request).  The loop recurses on
a fuel argument; `maxPosts` fuel always suffices because every iteration
either halts or strictly grows the collected list while the guard keeps
its length below `maxPosts` — `paginate_fuel_stable` proves that more
fuel never changes the result. -/

/-- One page request as sent by the loop: the `limit` parameter, the
`cursor` parameter (absent on the first request), and — as bookkeeping
for the claims — how many posts had been collected when it was sent. -/
structure PageRequest where
  limit : Nat
  cursor : Option String
  collectedBefore : Nat
deriving DecidableEq

/-- Response to one page request: a parsed page (post list and optional
next cursor), or a failed request (raised exception, or the falsy `None`
response of `make_public_request`). -/
inductive PageResponse (α : Type) where
  | ok (posts : List α) (cursor : Option String)
  | fail
deriving DecidableEq

/-- `post['comments'] = []` for a feed item. -/
def setCommentsFeed (p : FeedItem) : FeedItem := { p with comments := [] }

/-- `post['comments'] = []` for a search result. -/
def setCommentsSearch (p : SearchPost) : SearchPost := { p with comments := [] }

/-- The shared pagination loop.  `server i req` is the response to the
`i`-th request of the loop; `setC` is the per-post `comments`
initialisation; the result pairs the collected posts with the request
trace. -/
def paginate {α : Type} (server : Nat → PageRequest → PageResponse α)
    (setC : α → α) (maxPosts : Nat) :
    Nat → List α → Option String → Nat → List α × List PageRequest
  | 0, acc, _, _ => (acc, [])
  | fuel + 1, acc, cursor, i =>
    if acc.length < maxPosts then
      let limit := min 100 (maxPosts - acc.length)
      if limit = 0 then (acc, [])
      else
        let req : PageRequest :=
          ⟨limit, if pyTruthy cursor then cursor else none, acc.length⟩
        match server i req with
        | PageResponse.fail => (acc, [req])
        | PageResponse.ok posts rcursor =>
          if posts.isEmpty then (acc, [req])
          else
            let acc2 := acc ++ posts.map setC
            if pyTruthy rcursor then
              let rest := paginate server setC maxPosts fuel acc2 rcursor (i + 1)
              (rest.1, req :: rest.2)
            else (acc2, [req])
    else (acc, [])

/-- `get_custom_feed` of `feed_based.py` (`if not feed_uri: return []`,
then the loop). -/
def get_custom_feed (server : Nat → PageRequest → PageResponse FeedItem)
    (feedUri : String) (maxPosts : Nat) : List FeedItem × List PageRequest :=
  if feedUri == "" then ([], [])
  else paginate server setCommentsFeed maxPosts maxPosts [] none 0

/-- `search_posts_advanced` of `search_based.py` (the query and sort
order only shape the constant request parameters, which the server
oracle captures). -/
def search_posts_advanced (server : Nat → PageRequest → PageResponse SearchPost)
    (maxPosts : Nat) : List SearchPost × List PageRequest :=
  paginate server setCommentsSearch maxPosts maxPosts [] none 0

/-- `get_whats_hot_classic` of `trend_based_unauth.py`. -/
def get_whats_hot_classic (server : Nat → PageRequest → PageResponse FeedItem)
    (maxPosts : Nat) : List FeedItem × List PageRequest :=
  paginate server setCommentsFeed maxPosts maxPosts [] none 0

/-- A server complies with the API contract when every page it returns
holds at most the requested number of items. -/
def ServerComplies {α : Type}
    (server : Nat → PageRequest → PageResponse α) : Prop :=
  ∀ i req posts c, server i req = PageResponse.ok posts c →
    posts.length ≤ req.limit

/-- The request-trace facts claim C2 states: every page is requested only
while fewer than `m` posts are collected, with
`limit = min(100, m - collected)`. -/
def RequestsRespect (m : Nat) (reqs : List PageRequest) : Prop :=
  ∀ req ∈ reqs, req.limit = min 100 (m - req.collectedBefore) ∧
    req.collectedBefore < m

/-- Core invariant of the pagination loop: under a compliant server the
collected list never exceeds `maxPosts` and every request in the trace
respects the limit formula. -/
theorem paginate_bounded {α : Type}
    (server : Nat → PageRequest → PageResponse α) (setC : α → α)
    (maxPosts : Nat) (H : ServerComplies server) :
    ∀ (fuel : Nat) (acc : List α) (cursor : Option String) (i : Nat),
      acc.length ≤ maxPosts →
      (paginate server setC maxPosts fuel acc cursor i).1.length ≤ maxPosts ∧
      RequestsRespect maxPosts
        (paginate server setC maxPosts fuel acc cursor i).2 := by
  intro fuel
  induction fuel with
  | zero =>
    intro acc cursor i hacc
    exact ⟨hacc, fun req hreq => by simp [paginate] at hreq⟩
  | succ f ih =>
    intro acc cursor i hacc
    by_cases hlt : acc.length < maxPosts
    · by_cases hl0 : min 100 (maxPosts - acc.length) = 0
      · have hunfold : paginate server setC maxPosts (f + 1) acc cursor i
            = (acc, []) := by
          simp [paginate, hlt, hl0]
        rw [hunfold]
        exact ⟨hacc, fun req hreq => by simp at hreq⟩
      · cases hresp : server i ⟨min 100 (maxPosts - acc.length),
          if pyTruthy cursor then cursor else none, acc.length⟩ with
        | fail =>
          have hunfold : paginate server setC maxPosts (f + 1) acc cursor i
              = (acc, [⟨min 100 (maxPosts - acc.length),
                  if pyTruthy cursor then cursor else none, acc.length⟩]) := by
            simp [paginate, hlt, hl0, hresp]
          rw [hunfold]
          refine ⟨hacc, fun req hreq => ?_⟩
          simp only [List.mem_singleton] at hreq
          subst hreq
          exact ⟨rfl, hlt⟩
        | ok posts rcursor =>
          by_cases hempty : posts.isEmpty = true
          · have hunfold : paginate server setC maxPosts (f + 1) acc cursor i
                = (acc, [⟨min 100 (maxPosts - acc.length),
                    if pyTruthy cursor then cursor else none, acc.length⟩]) := by
              simp [paginate, hlt, hl0, hresp, hempty]
            rw [hunfold]
            refine ⟨hacc, fun req hreq => ?_⟩
            simp only [List.mem_singleton] at hreq
            subst hreq
            exact ⟨rfl, hlt⟩
          · have hlen : posts.length ≤ min 100 (maxPosts - acc.length) :=
              H i _ posts rcursor hresp
            have hacc2 : (acc ++ posts.map setC).length ≤ maxPosts := by
              simp only [List.length_append, List.length_map]
              omega
            by_cases htr : pyTruthy rcursor = true
            · have hunfold : paginate server setC maxPosts (f + 1) acc cursor i
                  = ((paginate server setC maxPosts f
                        (acc ++ posts.map setC) rcursor (i + 1)).1,
                      ⟨min 100 (maxPosts - acc.length),
                        if pyTruthy cursor then cursor else none, acc.length⟩
                        :: (paginate server setC maxPosts f
                            (acc ++ posts.map setC) rcursor (i + 1)).2) := by
                simp [paginate, hlt, hl0, hresp, hempty, htr]
              rw [hunfold]
              obtain ⟨ih1, ih2⟩ := ih (acc ++ posts.map setC) rcursor (i + 1) hacc2
              refine ⟨ih1, fun req hreq => ?_⟩
              rcases List.mem_cons.mp hreq with hr | hr
              · subst hr
                exact ⟨rfl, hlt⟩
              · exact ih2 req hr
            · have hunfold : paginate server setC maxPosts (f + 1) acc cursor i
                  = (acc ++ posts.map setC,
                      [⟨min 100 (maxPosts - acc.length),
                        if pyTruthy cursor then cursor else none, acc.length⟩]) := by
                simp [paginate, hlt, hl0, hresp, hempty, htr]
              rw [hunfold]
              refine ⟨hacc2, fun req hreq => ?_⟩
              simp only [List.mem_singleton] at hreq
              subst hreq
              exact ⟨rfl, hlt⟩
    · have hunfold : paginate server setC maxPosts (f + 1) acc cursor i
          = (acc, []) := by
        simp [paginate, hlt]
      rw [hunfold]
      exact ⟨hacc, fun req hreq => by simp at hreq⟩

/-- Claim C2: each pagination routine fetches pages only while fewer than
`max_posts` posts are collected, requests every page with
`limit = min(100, max_posts - collected)`, and — provided every response
page holds at most the requested limit of items — returns at most
`max_posts` posts.  Stated for `get_custom_feed`,
`search_posts_advanced` and `get_whats_hot_classic`. -/
theorem pagination_respects_max
    (serverF serverW : Nat → PageRequest → PageResponse FeedItem)
    (serverS : Nat → PageRequest → PageResponse SearchPost)
    (feedUri : String) (m : Nat)
    (HF : ServerComplies serverF) (HS : ServerComplies serverS)
    (HW : ServerComplies serverW) :
    ((get_custom_feed serverF feedUri m).1.length ≤ m ∧
      RequestsRespect m (get_custom_feed serverF feedUri m).2) ∧
    ((search_posts_advanced serverS m).1.length ≤ m ∧
      RequestsRespect m (search_posts_advanced serverS m).2) ∧
    ((get_whats_hot_classic serverW m).1.length ≤ m ∧
      RequestsRespect m (get_whats_hot_classic serverW m).2) := by
  refine ⟨?_, ?_, ?_⟩
  · by_cases hu : feedUri == ""
    · have : get_custom_feed serverF feedUri m = ([], []) := by
        simp [get_custom_feed, hu]
      rw [this]
      exact ⟨by simp, fun req hreq => by simp at hreq⟩
    · have : get_custom_feed serverF feedUri m
          = paginate serverF setCommentsFeed m m [] none 0 := by
        simp only [get_custom_feed, hu, Bool.false_eq_true, if_false]
      rw [this]
      exact paginate_bounded serverF setCommentsFeed m HF m [] none 0 (by simp)
  · exact paginate_bounded serverS setCommentsSearch m HS m [] none 0 (by simp)
  · exact paginate_bounded serverW setCommentsFeed m HW m [] none 0 (by simp)

/-- Compliant server for the claim C2 witness: always returns a full page
of exactly the requested size with no next cursor. -/
def c2ServerF : Nat → PageRequest → PageResponse FeedItem :=
  fun _ req => PageResponse.ok
    (List.replicate req.limit ⟨⟨none, ⟨none, []⟩⟩, []⟩) none

/-- Compliant search server for the claim C2 witness. -/
def c2ServerS : Nat → PageRequest → PageResponse SearchPost :=
  fun _ req => PageResponse.ok
    (List.replicate req.limit ⟨none, ⟨none, []⟩, []⟩) none

/-- `c2ServerF` complies with the page-size contract. -/
theorem c2ServerF_complies : ServerComplies c2ServerF := by
  intro i req posts c h
  injection h with h1 h2
  subst h1
  simp

/-- `c2ServerS` complies with the page-size contract. -/
theorem c2ServerS_complies : ServerComplies c2ServerS := by
  intro i req posts c h
  injection h with h1 h2
  subst h1
  simp

/-- Witness for claim C2 on concrete compliant servers. -/
theorem pagination_respects_max_witness :
    ServerComplies c2ServerF ∧ ServerComplies c2ServerS ∧
    (get_custom_feed c2ServerF "at-uri" 42).1.length ≤ 42 ∧
    RequestsRespect 42 (get_custom_feed c2ServerF "at-uri" 42).2 ∧
    (search_posts_advanced c2ServerS 42).1.length ≤ 42 ∧
    RequestsRespect 42 (search_posts_advanced c2ServerS 42).2 ∧
    (get_whats_hot_classic c2ServerF 42).1.length ≤ 42 ∧
    RequestsRespect 42 (get_whats_hot_classic c2ServerF 42).2 :=
  ⟨c2ServerF_complies, c2ServerS_complies,
    (pagination_respects_max c2ServerF c2ServerF c2ServerS "at-uri" 42
      c2ServerF_complies c2ServerS_complies c2ServerF_complies).1.1,
    (pagination_respects_max c2ServerF c2ServerF c2ServerS "at-uri" 42
      c2ServerF_complies c2ServerS_complies c2ServerF_complies).1.2,
    (pagination_respects_max c2ServerF c2ServerF c2ServerS "at-uri" 42
      c2ServerF_complies c2ServerS_complies c2ServerF_complies).2.1.1,
    (pagination_respects_max c2ServerF c2ServerF c2ServerS "at-uri" 42
      c2ServerF_complies c2ServerS_complies c2ServerF_complies).2.1.2,
    (pagination_respects_max c2ServerF c2ServerF c2ServerS "at-uri" 42
      c2ServerF_complies c2ServerS_complies c2ServerF_complies).2.2.1,
    (pagination_respects_max c2ServerF c2ServerF c2ServerS "at-uri" 42
      c2ServerF_complies c2ServerS_complies c2ServerF_complies).2.2.2⟩

/-- Termination of the pagination loop: `maxPosts - collected` fuel
always suffices, so giving the loop any more fuel never changes the
result — the loop has halted by then. -/
theorem paginate_fuel_stable {α : Type}
    (server : Nat → PageRequest → PageResponse α) (setC : α → α)
    (maxPosts : Nat) :
    ∀ (f g : Nat) (acc : List α) (cursor : Option String) (i : Nat),
      maxPosts - acc.length ≤ f → maxPosts - acc.length ≤ g →
      paginate server setC maxPosts f acc cursor i
        = paginate server setC maxPosts g acc cursor i := by
  intro f
  induction f with
  | zero =>
    intro g acc cursor i hf hg
    have hnlt : ¬ acc.length < maxPosts := by omega
    cases g with
    | zero => rfl
    | succ g' => simp [paginate, hnlt]
  | succ f' ih =>
    intro g acc cursor i hf hg
    cases g with
    | zero =>
      have hnlt : ¬ acc.length < maxPosts := by omega
      simp [paginate, hnlt]
    | succ g' =>
      by_cases hlt : acc.length < maxPosts
      · by_cases hl0 : min 100 (maxPosts - acc.length) = 0
        · simp [paginate, hlt, hl0]
        · cases hresp : server i ⟨min 100 (maxPosts - acc.length),
            if pyTruthy cursor then cursor else none, acc.length⟩ with
          | fail => simp [paginate, hlt, hl0, hresp]
          | ok posts rcursor =>
            by_cases hempty : posts.isEmpty = true
            · simp [paginate, hlt, hl0, hresp, hempty]
            · by_cases htr : pyTruthy rcursor = true
              · have hlen : 1 ≤ posts.length := by
                  cases posts with
                  | nil => simp at hempty
                  | cons a l => simp
                have hrec := ih g' (acc ++ posts.map setC) rcursor (i + 1)
                  (by simp only [List.length_append, List.length_map]; omega)
                  (by simp only [List.length_append, List.length_map]; omega)
                simp [paginate, hlt, hl0, hresp, hempty, htr, hrec]
              · simp [paginate, hlt, hl0, hresp, hempty, htr]
      · simp [paginate, hlt]

/-- Structure of the request trace: the first request carries the
incoming cursor (`None` at top level), the trace never exceeds the
remaining budget, and each subsequent request exists only because the
previous response was a non-empty page with a truthy cursor — which the
next request carries verbatim while the collected count strictly grew. -/
theorem paginate_trace {α : Type}
    (server : Nat → PageRequest → PageResponse α) (setC : α → α)
    (maxPosts : Nat) :
    ∀ (fuel : Nat) (acc : List α) (cursor : Option String) (i : Nat),
      (∀ r, (paginate server setC maxPosts fuel acc cursor i).2.head? = some r →
        r.cursor = (if pyTruthy cursor then cursor else none) ∧
        r.collectedBefore = acc.length) ∧
      (paginate server setC maxPosts fuel acc cursor i).2.length
        ≤ maxPosts - acc.length ∧
      (∀ j r1 r2 tl,
        (paginate server setC maxPosts fuel acc cursor i).2.drop j
          = r1 :: r2 :: tl →
        r1.collectedBefore < r2.collectedBefore ∧
        ∃ posts c, server (i + j) r1 = PageResponse.ok posts (some c) ∧
          posts.isEmpty = false ∧ c ≠ "" ∧ r2.cursor = some c) := by
  intro fuel
  induction fuel with
  | zero =>
    intro acc cursor i
    refine ⟨fun r hr => by simp [paginate] at hr, by simp [paginate], ?_⟩
    intro j r1 r2 tl h
    simp [paginate] at h
  | succ f ih =>
    intro acc cursor i
    by_cases hlt : acc.length < maxPosts
    · by_cases hl0 : min 100 (maxPosts - acc.length) = 0
      · have hunfold : paginate server setC maxPosts (f + 1) acc cursor i
            = (acc, []) := by
          simp [paginate, hlt, hl0]
        rw [hunfold]
        refine ⟨fun r hr => by simp at hr, by simp, ?_⟩
        intro j r1 r2 tl h
        simp at h
      · cases hresp : server i ⟨min 100 (maxPosts - acc.length),
          if pyTruthy cursor then cursor else none, acc.length⟩ with
        | fail =>
          have hunfold : paginate server setC maxPosts (f + 1) acc cursor i
              = (acc, [⟨min 100 (maxPosts - acc.length),
                  if pyTruthy cursor then cursor else none, acc.length⟩]) := by
            simp [paginate, hlt, hl0, hresp]
          rw [hunfold]
          refine ⟨?_, by simp; omega, ?_⟩
          · intro r hr
            simp only [List.head?_cons, Option.some_inj] at hr
            subst hr
            exact ⟨rfl, rfl⟩
          · intro j r1 r2 tl h
            have hlen := congrArg List.length h
            simp [List.length_drop] at hlen
            omega
        | ok posts rcursor =>
          by_cases hempty : posts.isEmpty = true
          · have hunfold : paginate server setC maxPosts (f + 1) acc cursor i
                = (acc, [⟨min 100 (maxPosts - acc.length),
                    if pyTruthy cursor then cursor else none, acc.length⟩]) := by
              simp [paginate, hlt, hl0, hresp, hempty]
            rw [hunfold]
            refine ⟨?_, by simp; omega, ?_⟩
            · intro r hr
              simp only [List.head?_cons, Option.some_inj] at hr
              subst hr
              exact ⟨rfl, rfl⟩
            · intro j r1 r2 tl h
              have hlen := congrArg List.length h
              simp [List.length_drop] at hlen
              omega
          · have hplen : 1 ≤ posts.length := by
              cases posts with
              | nil => simp at hempty
              | cons a l => simp
            by_cases htr : pyTruthy rcursor = true
            · have hunfold : paginate server setC maxPosts (f + 1) acc cursor i
                  = ((paginate server setC maxPosts f
                        (acc ++ posts.map setC) rcursor (i + 1)).1,
                      ⟨min 100 (maxPosts - acc.length),
                        if pyTruthy cursor then cursor else none, acc.length⟩
                        :: (paginate server setC maxPosts f
                            (acc ++ posts.map setC) rcursor (i + 1)).2) := by
                simp [paginate, hlt, hl0, hresp, hempty, htr]
              obtain ⟨iha, ihb, ihc⟩ := ih (acc ++ posts.map setC) rcursor (i + 1)
              rw [hunfold]
              refine ⟨?_, ?_, ?_⟩
              · intro r hr
                simp only [List.head?_cons, Option.some_inj] at hr
                subst hr
                exact ⟨rfl, rfl⟩
              · simp only [List.length_cons]
                have : (acc ++ posts.map setC).length
                    = acc.length + posts.length := by
                  simp [List.length_append, List.length_map]
                omega
              · intro j r1 r2 tl h
                cases j with
                | zero =>
                  simp only [List.drop_zero] at h
                  injection h with h1 h2
                  subst h1
                  obtain ⟨c, hc, hcee⟩ : ∃ c, rcursor = some c ∧ c ≠ "" := by
                    rcases rcursor with _ | c
                    · simp [pyTruthy] at htr
                    · refine ⟨c, rfl, ?_⟩
                      simp [pyTruthy] at htr
                      exact htr
                  have hhead := iha r2 (by rw [h2]; rfl)
                  constructor
                  · rw [hhead.2]
                    simp only [List.length_append, List.length_map]
                    omega
                  · refine ⟨posts, c, ?_, ?_, hcee, ?_⟩
                    · rw [Nat.add_zero, ← hc]
                      exact hresp
                    · simpa using hempty
                    · rw [hhead.1, htr]
                      exact hc
                | succ j' =>
                  simp only [List.drop_succ_cons] at h
                  have := ihc j' r1 r2 tl h
                  rwa [show i + 1 + j' = i + (j' + 1) from by omega] at this
            · have hunfold : paginate server setC maxPosts (f + 1) acc cursor i
                  = (acc ++ posts.map setC,
                      [⟨min 100 (maxPosts - acc.length),
                        if pyTruthy cursor then cursor else none, acc.length⟩]) := by
                simp [paginate, hlt, hl0, hresp, hempty, htr]
              rw [hunfold]
              refine ⟨?_, by simp; omega, ?_⟩
              · intro r hr
                simp only [List.head?_cons, Option.some_inj] at hr
                subst hr
                exact ⟨rfl, rfl⟩
              · intro j r1 r2 tl h
                have hlen := congrArg List.length h
                simp [List.length_drop] at hlen
                omega
    · have hunfold : paginate server setC maxPosts (f + 1) acc cursor i
          = (acc, []) := by
        simp [paginate, hlt]
      rw [hunfold]
      refine ⟨fun r hr => by simp at hr, by simp, ?_⟩
      intro j r1 r2 tl h
      simp at h

/-- Claim C7: every pagination loop terminates and threads the cursor
correctly.  For `get_custom_feed` and `get_whats_hot_classic` on every
server: giving the loop any extra fuel beyond `maxPosts` changes nothing
(the loop has halted — its exit conditions are the no-cursor, empty-page,
error and count-reached branches of `paginate`); the trace holds at most
`maxPosts` requests; the first request carries no cursor; and every
subsequent request exists only because the previous response was a
non-empty page (strictly growing the collected count) whose cursor the
next request carries exactly. -/
theorem pagination_terminates_cursor_chain
    (serverF serverW : Nat → PageRequest → PageResponse FeedItem)
    (feedUri : String) (m : Nat) :
    (∀ extra, paginate serverF setCommentsFeed m (m + extra)
        ([] : List FeedItem) none 0
      = paginate serverF setCommentsFeed m m [] none 0) ∧
    (get_custom_feed serverF feedUri m).2.length ≤ m ∧
    (∀ r, (get_custom_feed serverF feedUri m).2.head? = some r →
      r.cursor = none ∧ r.collectedBefore = 0) ∧
    (∀ j r1 r2 tl,
      (get_custom_feed serverF feedUri m).2.drop j = r1 :: r2 :: tl →
      r1.collectedBefore < r2.collectedBefore ∧
      ∃ posts c, serverF j r1 = PageResponse.ok posts (some c) ∧
        posts.isEmpty = false ∧ c ≠ "" ∧ r2.cursor = some c) ∧
    (∀ extra, paginate serverW setCommentsFeed m (m + extra)
        ([] : List FeedItem) none 0
      = paginate serverW setCommentsFeed m m [] none 0) ∧
    (get_whats_hot_classic serverW m).2.length ≤ m ∧
    (∀ r, (get_whats_hot_classic serverW m).2.head? = some r →
      r.cursor = none ∧ r.collectedBefore = 0) ∧
    (∀ j r1 r2 tl,
      (get_whats_hot_classic serverW m).2.drop j = r1 :: r2 :: tl →
      r1.collectedBefore < r2.collectedBefore ∧
      ∃ posts c, serverW j r1 = PageResponse.ok posts (some c) ∧
        posts.isEmpty = false ∧ c ≠ "" ∧ r2.cursor = some c) := by
  have hW := paginate_trace serverW setCommentsFeed m m [] none 0
  refine ⟨?_, ?_, ?_, ?_, ?_, ?_, ?_, ?_⟩
  · intro extra
    exact paginate_fuel_stable serverF setCommentsFeed m (m + extra) m []
      none 0 (by simp) (by simp)
  · by_cases hu : feedUri == ""
    · simp [get_custom_feed, hu]
    · have hred : get_custom_feed serverF feedUri m
          = paginate serverF setCommentsFeed m m [] none 0 := by
        simp only [get_custom_feed, hu, Bool.false_eq_true, if_false]
      rw [hred]
      simpa using (paginate_trace serverF setCommentsFeed m m [] none 0).2.1
  · intro r hr
    by_cases hu : feedUri == ""
    · simp [get_custom_feed, hu] at hr
    · have hred : get_custom_feed serverF feedUri m
          = paginate serverF setCommentsFeed m m [] none 0 := by
        simp only [get_custom_feed, hu, Bool.false_eq_true, if_false]
      rw [hred] at hr
      have := (paginate_trace serverF setCommentsFeed m m [] none 0).1 r hr
      simpa [pyTruthy] using this
  · intro j r1 r2 tl h
    by_cases hu : feedUri == ""
    · simp [get_custom_feed, hu] at h
    · have hred : get_custom_feed serverF feedUri m
          = paginate serverF setCommentsFeed m m [] none 0 := by
        simp only [get_custom_feed, hu, Bool.false_eq_true, if_false]
      rw [hred] at h
      have := (paginate_trace serverF setCommentsFeed m m [] none 0).2.2
        j r1 r2 tl h
      simpa using this
  · intro extra
    exact paginate_fuel_stable serverW setCommentsFeed m (m + extra) m []
      none 0 (by simp) (by simp)
  · simpa [get_whats_hot_classic] using hW.2.1
  · intro r hr
    have := hW.1 r (by simpa [get_whats_hot_classic] using hr)
    simpa [pyTruthy] using this
  · intro j r1 r2 tl h
    have := hW.2.2 j r1 r2 tl (by simpa [get_whats_hot_classic] using h)
    simpa using this

/-- Concrete server for the claim C7 witness: the first page has one post
and a cursor, the second page ends the feed. -/
def c7Server : Nat → PageRequest → PageResponse FeedItem :=
  fun i _ =>
    if i = 0 then PageResponse.ok [⟨⟨none, ⟨none, []⟩⟩, []⟩] (some "c1")
    else PageResponse.ok [⟨⟨none, ⟨none, []⟩⟩, []⟩] none

/-- Witness for claim C7: on the concrete server the trace has two
requests and the second carries exactly the cursor of the first
response. -/
theorem pagination_terminates_cursor_chain_witness :
    (get_custom_feed c7Server "u" 3).2.drop 0
        = (⟨3, none, 0⟩ : PageRequest) :: (⟨2, some "c1", 1⟩ : PageRequest) :: [] ∧
    ((⟨3, none, 0⟩ : PageRequest).collectedBefore
        < (⟨2, some "c1", 1⟩ : PageRequest).collectedBefore ∧
      ∃ posts c, c7Server 0 ⟨3, none, 0⟩ = PageResponse.ok posts (some c) ∧
        posts.isEmpty = false ∧ c ≠ "" ∧
        (⟨2, some "c1", 1⟩ : PageRequest).cursor = some c) :=
  ⟨by decide,
    (pagination_terminates_cursor_chain c7Server c7Server "u" 3).2.2.2.1
      0 ⟨3, none, 0⟩ ⟨2, some "c1", 1⟩ [] (by decide)⟩

/-! ## Author-feed pagination with time filtering (claim C9)

`user_based.py` lines 123-175 (`get_all_user_posts`):
```
while True:
    params = {"actor": actor_handle, "limit": 100}
    if cursor: params["cursor"] = cursor
    try:
        response = self._make_request("GET", "app.bsky.feed.getAuthorFeed", params=params)
        posts_on_page = response.get('feed', [])
        if not posts_on_page: break
        for post in posts_on_page:
            try:
                post_time = datetime.fromisoformat(post['post']['record']['createdAt'].replace("Z", "+00:00"))
            except Exception:
                continue
            if start_time <= post_time <= end_time:
                post['comments'] = []
                all_posts.append(post)
                if max_posts and len(all_posts) >= max_posts:
                    return all_posts
            elif post_time < start_time:
                return all_posts
        cursor = response.get('cursor')
        if not cursor: break
    except Exception: break
return all_posts
```
`user_based_unauth.py` lines 53-112 check `post_time < start_time` before
the range test and skip falsy `createdAt` strings explicitly; the
substitution of `datetime.min`/`datetime.max` for absent bounds is
rendered by the unbounded `lowerOk`/`upperOk`/`belowLower` comparators.
The outer `while True` loop takes fuel, since its termination depends on
the server's cursor chain. -/

/-- The request `get_all_user_posts` sends for one page. -/
structure AuthorPageRequest where
  actor : String
  limit : Nat
  cursor : Option String
deriving DecidableEq

/-- Result of processing one page of posts: early `return` out of the
whole loop, or continue with the grown accumulator. -/
inductive LoopStep where
  | halt (res : List FeedItem)
  | next (acc : List FeedItem)
deriving DecidableEq

/-- `if max_posts and len(all_posts) >= max_posts` — Python truthiness of
the optional count (absent or zero means no limit). -/
def maxReached : Option Nat → Nat → Bool
  | none, _ => false
  | some mp, n => decide (mp ≠ 0) && decide (mp ≤ n)

/-- The inner `for post in posts_on_page` loop of `user_based.py`. -/
def processAuthorPage (parse : String → Option Int) (startT endT : Option Int)
    (maxp : Option Nat) : List FeedItem → List FeedItem → LoopStep
  | [], acc => LoopStep.next acc
  | p :: rest, acc =>
    match p.post.record.createdAt with
    | none => processAuthorPage parse startT endT maxp rest acc
    | some s =>
      match parse s with
      | none => processAuthorPage parse startT endT maxp rest acc
      | some t =>
        if lowerOk startT t && upperOk endT t then
          let acc2 := acc ++ [{ p with comments := [] }]
          if maxReached maxp acc2.length then LoopStep.halt acc2
          else processAuthorPage parse startT endT maxp rest acc2
        else if belowLower startT t then LoopStep.halt acc
        else processAuthorPage parse startT endT maxp rest acc

/-- The inner loop of `user_based_unauth.py`: falsy `createdAt` skipped
explicitly, early-stop test before the range test. -/
def processAuthorPageUnauth (parse : String → Option Int)
    (startT endT : Option Int) (maxp : Option Nat) :
    List FeedItem → List FeedItem → LoopStep
  | [], acc => LoopStep.next acc
  | p :: rest, acc =>
    match p.post.record.createdAt with
    | none => processAuthorPageUnauth parse startT endT maxp rest acc
    | some s =>
      if s == "" then processAuthorPageUnauth parse startT endT maxp rest acc
      else
        match parse s with
        | none => processAuthorPageUnauth parse startT endT maxp rest acc
        | some t =>
          if belowLower startT t then LoopStep.halt acc
          else if lowerOk startT t && upperOk endT t then
            let acc2 := acc ++ [{ p with comments := [] }]
            if maxReached maxp acc2.length then LoopStep.halt acc2
            else processAuthorPageUnauth parse startT endT maxp rest acc2
          else processAuthorPageUnauth parse startT endT maxp rest acc

/-- The shared outer `while True` pagination loop of both user-post
archivers, parameterised by the page processor. -/
def userPostsLoop (server : Nat → AuthorPageRequest → PageResponse FeedItem)
    (actor : String) (process : List FeedItem → List FeedItem → LoopStep) :
    Nat → List FeedItem → Option String → Nat → List FeedItem
  | 0, acc, _, _ => acc
  | fuel + 1, acc, cursor, i =>
    let req : AuthorPageRequest :=
      ⟨actor, 100, if pyTruthy cursor then cursor else none⟩
    match server i req with
    | PageResponse.fail => acc
    | PageResponse.ok page rcursor =>
      if page.isEmpty then acc
      else
        match process page acc with
        | LoopStep.halt res => res
        | LoopStep.next acc2 =>
          if pyTruthy rcursor then
            userPostsLoop server actor process fuel acc2 rcursor (i + 1)
          else acc2

/-- `get_all_user_posts` of `user_based.py`. -/
def get_all_user_posts (server : Nat → AuthorPageRequest → PageResponse FeedItem)
    (parse : String → Option Int) (actor : String) (startT endT : Option Int)
    (maxp : Option Nat) (fuel : Nat) : List FeedItem :=
  userPostsLoop server actor (processAuthorPage parse startT endT maxp)
    fuel [] none 0

/-- `get_all_user_posts` of `user_based_unauth.py`. -/
def get_all_user_posts_unauth
    (server : Nat → AuthorPageRequest → PageResponse FeedItem)
    (parse : String → Option Int) (actor : String) (startT endT : Option Int)
    (maxp : Option Nat) (fuel : Nat) : List FeedItem :=
  userPostsLoop server actor (processAuthorPageUnauth parse startT endT maxp)
    fuel [] none 0

/-- A post's `createdAt` is present, parses, and lies inside the optional
bounds. -/
def InTimeRange (parse : String → Option Int) (startT endT : Option Int)
    (p : FeedItem) : Prop :=
  ∃ s t, p.post.record.createdAt = some s ∧ parse s = some t ∧
    lowerOk startT t = true ∧ upperOk endT t = true

/-- Invariant on a finished result list: all posts in range, length at
most any positive requested maximum. -/
def ResultOk (parse : String → Option Int) (startT endT : Option Int)
    (maxp : Option Nat) (l : List FeedItem) : Prop :=
  (∀ q ∈ l, InTimeRange parse startT endT q) ∧
  (∀ mp, maxp = some mp → 0 < mp → l.length ≤ mp)

/-- Invariant on a running accumulator: all posts in range, length
strictly below any positive requested maximum. -/
def AccOk (parse : String → Option Int) (startT endT : Option Int)
    (maxp : Option Nat) (l : List FeedItem) : Prop :=
  (∀ q ∈ l, InTimeRange parse startT endT q) ∧
  (∀ mp, maxp = some mp → 0 < mp → l.length < mp)

/-- Setting `comments := []` does not change the post's record. -/
theorem inTimeRange_setComments (parse : String → Option Int)
    (startT endT : Option Int) (p : FeedItem) (s : String) (t : Int)
    (hcr : p.post.record.createdAt = some s) (hps : parse s = some t)
    (hlo : lowerOk startT t = true) (hhi : upperOk endT t = true) :
    InTimeRange parse startT endT { p with comments := [] } :=
  ⟨s, t, hcr, hps, hlo, hhi⟩

/-- A failed `maxReached` test with a positive limit keeps the count
strictly below the limit. -/
theorem lt_of_maxReached_false {maxp : Option Nat} {n mp : Nat}
    (hmr : maxReached maxp n = false) (hm : maxp = some mp) (hp : 0 < mp) :
    n < mp := by
  subst hm
  simp only [maxReached, Bool.and_eq_false_iff, decide_eq_false_iff_not] at hmr
  rcases hmr with h | h
  · omega
  · omega

/-- The inner page loop of `user_based.py` preserves the collection
invariant: an early `return` yields a valid result, a fall-through
yields a valid accumulator. -/
theorem processAuthorPage_ok (parse : String → Option Int)
    (startT endT : Option Int) (maxp : Option Nat) :
    ∀ (page : List FeedItem), ∀ (acc : List FeedItem),
      AccOk parse startT endT maxp acc →
      (∀ res, processAuthorPage parse startT endT maxp page acc
          = LoopStep.halt res → ResultOk parse startT endT maxp res) ∧
      (∀ acc2, processAuthorPage parse startT endT maxp page acc
          = LoopStep.next acc2 → AccOk parse startT endT maxp acc2) := by
  intro page
  induction page with
  | nil =>
    intro acc hacc
    constructor
    · intro res h
      simp [processAuthorPage] at h
    · intro acc2 h
      simp only [processAuthorPage, LoopStep.next.injEq] at h
      subst h
      exact hacc
  | cons p rest ih =>
    intro acc hacc
    rcases hcr : p.post.record.createdAt with _ | s
    · have hun : processAuthorPage parse startT endT maxp (p :: rest) acc
          = processAuthorPage parse startT endT maxp rest acc := by
        simp [processAuthorPage, hcr]
      rw [hun]
      exact ih acc hacc
    · rcases hps : parse s with _ | t
      · have hun : processAuthorPage parse startT endT maxp (p :: rest) acc
            = processAuthorPage parse startT endT maxp rest acc := by
          simp [processAuthorPage, hcr, hps]
        rw [hun]
        exact ih acc hacc
      · have hmem2 : (lowerOk startT t && upperOk endT t) = true →
            ∀ q ∈ acc ++ [{ p with comments := [] }],
              InTimeRange parse startT endT q := by
          intro hio q hq
          rcases List.mem_append.mp hq with hq | hq
          · exact hacc.1 q hq
          · simp only [List.mem_singleton] at hq
            subst hq
            have hio2 := hio
            simp only [Bool.and_eq_true] at hio2
            exact inTimeRange_setComments parse startT endT p s t hcr hps
              hio2.1 hio2.2
        by_cases hio : (lowerOk startT t && upperOk endT t) = true
        · by_cases hmr : maxReached maxp (acc.length + 1) = true
          · have hun : processAuthorPage parse startT endT maxp (p :: rest) acc
                = LoopStep.halt (acc ++ [{ p with comments := [] }]) := by
              simp [processAuthorPage, hcr, hps, hio, hmr]
            rw [hun]
            constructor
            · intro res h
              injection h with h
              subst h
              refine ⟨hmem2 hio, fun mp hm hp => ?_⟩
              have := hacc.2 mp hm hp
              simp only [List.length_append, List.length_cons, List.length_nil]
              omega
            · intro acc2 h
              cases h
          · have hun : processAuthorPage parse startT endT maxp (p :: rest) acc
                = processAuthorPage parse startT endT maxp rest
                    (acc ++ [{ p with comments := [] }]) := by
              simp [processAuthorPage, hcr, hps, hio, hmr]
            rw [hun]
            refine ih (acc ++ [{ p with comments := [] }]) ⟨hmem2 hio, ?_⟩
            intro mp hm hp
            have hlt := lt_of_maxReached_false
              (show maxReached maxp (acc.length + 1) = false by
                simpa using hmr) hm hp
            simpa using hlt
        · by_cases hbl : belowLower startT t = true
          · have hun : processAuthorPage parse startT endT maxp (p :: rest) acc
                = LoopStep.halt acc := by
              simp [processAuthorPage, hcr, hps, hio, hbl]
            rw [hun]
            constructor
            · intro res h
              injection h with h
              subst h
              exact ⟨hacc.1, fun mp hm hp => Nat.le_of_lt (hacc.2 mp hm hp)⟩
            · intro acc2 h
              cases h
          · have hun : processAuthorPage parse startT endT maxp (p :: rest) acc
                = processAuthorPage parse startT endT maxp rest acc := by
              simp [processAuthorPage, hcr, hps, hio, hbl]
            rw [hun]
            exact ih acc hacc

/-- The inner page loop of `user_based_unauth.py` preserves the same
invariant. -/
theorem processAuthorPageUnauth_ok (parse : String → Option Int)
    (startT endT : Option Int) (maxp : Option Nat) :
    ∀ (page : List FeedItem), ∀ (acc : List FeedItem),
      AccOk parse startT endT maxp acc →
      (∀ res, processAuthorPageUnauth parse startT endT maxp page acc
          = LoopStep.halt res → ResultOk parse startT endT maxp res) ∧
      (∀ acc2, processAuthorPageUnauth parse startT endT maxp page acc
          = LoopStep.next acc2 → AccOk parse startT endT maxp acc2) := by
  intro page
  induction page with
  | nil =>
    intro acc hacc
    constructor
    · intro res h
      simp [processAuthorPageUnauth] at h
    · intro acc2 h
      simp only [processAuthorPageUnauth, LoopStep.next.injEq] at h
      subst h
      exact hacc
  | cons p rest ih =>
    intro acc hacc
    rcases hcr : p.post.record.createdAt with _ | s
    · have hun : processAuthorPageUnauth parse startT endT maxp (p :: rest) acc
          = processAuthorPageUnauth parse startT endT maxp rest acc := by
        simp [processAuthorPageUnauth, hcr]
      rw [hun]
      exact ih acc hacc
    · by_cases hse : s = ""
      · have hun : processAuthorPageUnauth parse startT endT maxp (p :: rest) acc
            = processAuthorPageUnauth parse startT endT maxp rest acc := by
          simp [processAuthorPageUnauth, hcr, hse]
        rw [hun]
        exact ih acc hacc
      · rcases hps : parse s with _ | t
        · have hun : processAuthorPageUnauth parse startT endT maxp (p :: rest) acc
              = processAuthorPageUnauth parse startT endT maxp rest acc := by
            simp [processAuthorPageUnauth, hcr, hse, hps]
          rw [hun]
          exact ih acc hacc
        · by_cases hbl : belowLower startT t = true
          · have hun : processAuthorPageUnauth parse startT endT maxp (p :: rest) acc
                = LoopStep.halt acc := by
              simp [processAuthorPageUnauth, hcr, hse, hps, hbl]
            rw [hun]
            constructor
            · intro res h
              injection h with h
              subst h
              exact ⟨hacc.1, fun mp hm hp => Nat.le_of_lt (hacc.2 mp hm hp)⟩
            · intro acc2 h
              cases h
          · have hmem2 : (lowerOk startT t && upperOk endT t) = true →
                ∀ q ∈ acc ++ [{ p with comments := [] }],
                  InTimeRange parse startT endT q := by
              intro hio q hq
              rcases List.mem_append.mp hq with hq | hq
              · exact hacc.1 q hq
              · simp only [List.mem_singleton] at hq
                subst hq
                have hio2 := hio
                simp only [Bool.and_eq_true] at hio2
                exact inTimeRange_setComments parse startT endT p s t hcr hps
                  hio2.1 hio2.2
            by_cases hio : (lowerOk startT t && upperOk endT t) = true
            · by_cases hmr : maxReached maxp (acc.length + 1) = true
              · have hun : processAuthorPageUnauth parse startT endT maxp
                      (p :: rest) acc
                    = LoopStep.halt (acc ++ [{ p with comments := [] }]) := by
                  simp [processAuthorPageUnauth, hcr, hse, hps, hbl, hio, hmr]
                rw [hun]
                constructor
                · intro res h
                  injection h with h
                  subst h
                  refine ⟨hmem2 hio, fun mp hm hp => ?_⟩
                  have := hacc.2 mp hm hp
                  simp only [List.length_append, List.length_cons, List.length_nil]
                  omega
                · intro acc2 h
                  cases h
              · have hun : processAuthorPageUnauth parse startT endT maxp
                      (p :: rest) acc
                    = processAuthorPageUnauth parse startT endT maxp rest
                        (acc ++ [{ p with comments := [] }]) := by
                  simp [processAuthorPageUnauth, hcr, hse, hps, hbl, hio, hmr]
                rw [hun]
                refine ih (acc ++ [{ p with comments := [] }]) ⟨hmem2 hio, ?_⟩
                intro mp hm hp
                have hlt := lt_of_maxReached_false
                  (show maxReached maxp (acc.length + 1) = false by
                    simpa using hmr) hm hp
                simpa using hlt
            · have hun : processAuthorPageUnauth parse startT endT maxp
                    (p :: rest) acc
                  = processAuthorPageUnauth parse startT endT maxp rest acc := by
                simp [processAuthorPageUnauth, hcr, hse, hps, hbl, hio]
              rw [hun]
              exact ih acc hacc

/-- The outer pagination loop preserves the invariant whenever its page
processor does. -/
theorem userPostsLoop_ok (server : Nat → AuthorPageRequest → PageResponse FeedItem)
    (actor : String) (parse : String → Option Int) (startT endT : Option Int)
    (maxp : Option Nat) (process : List FeedItem → List FeedItem → LoopStep)
    (hproc : ∀ page acc, AccOk parse startT endT maxp acc →
      (∀ res, process page acc = LoopStep.halt res →
        ResultOk parse startT endT maxp res) ∧
      (∀ acc2, process page acc = LoopStep.next acc2 →
        AccOk parse startT endT maxp acc2)) :
    ∀ (fuel : Nat) (acc : List FeedItem) (cursor : Option String) (i : Nat),
      AccOk parse startT endT maxp acc →
      ResultOk parse startT endT maxp
        (userPostsLoop server actor process fuel acc cursor i) := by
  intro fuel
  induction fuel with
  | zero =>
    intro acc cursor i hacc
    exact ⟨hacc.1, fun mp hm hp => Nat.le_of_lt (hacc.2 mp hm hp)⟩
  | succ f ih =>
    intro acc cursor i hacc
    cases hresp : server i ⟨actor, 100,
        if pyTruthy cursor then cursor else none⟩ with
    | fail =>
      have hun : userPostsLoop server actor process (f + 1) acc cursor i
          = acc := by
        simp [userPostsLoop, hresp]
      rw [hun]
      exact ⟨hacc.1, fun mp hm hp => Nat.le_of_lt (hacc.2 mp hm hp)⟩
    | ok page rcursor =>
      by_cases hempty : page.isEmpty = true
      · have hun : userPostsLoop server actor process (f + 1) acc cursor i
            = acc := by
          simp [userPostsLoop, hresp, hempty]
        rw [hun]
        exact ⟨hacc.1, fun mp hm hp => Nat.le_of_lt (hacc.2 mp hm hp)⟩
      · cases hstep : process page acc with
        | halt res =>
          have hun : userPostsLoop server actor process (f + 1) acc cursor i
              = res := by
            simp [userPostsLoop, hresp, hempty, hstep]
          rw [hun]
          exact (hproc page acc hacc).1 res hstep
        | next acc2 =>
          have hacc2 := (hproc page acc hacc).2 acc2 hstep
          by_cases htr : pyTruthy rcursor = true
          · have hun : userPostsLoop server actor process (f + 1) acc cursor i
                = userPostsLoop server actor process f acc2 rcursor (i + 1) := by
              simp [userPostsLoop, hresp, hempty, hstep, htr]
            rw [hun]
            exact ih acc2 rcursor (i + 1) hacc2
          · have hun : userPostsLoop server actor process (f + 1) acc cursor i
                = acc2 := by
              simp [userPostsLoop, hresp, hempty, hstep, htr]
            rw [hun]
            exact ⟨hacc2.1, fun mp hm hp => Nat.le_of_lt (hacc2.2 mp hm hp)⟩

/-- Claim C9: every post returned by `get_all_user_posts` (authenticated
and unauthenticated variants) carries a `createdAt` that parses into the
requested time range (absent bounds unbounded) — so posts with a missing
or unparseable `createdAt` never appear — and a positive `max_posts`
bounds the length of the result. -/
theorem get_all_user_posts_invariant
    (serverA serverU : Nat → AuthorPageRequest → PageResponse FeedItem)
    (parse : String → Option Int) (actor : String) (startT endT : Option Int)
    (maxp : Option Nat) (fuel : Nat) :
    (∀ p ∈ get_all_user_posts serverA parse actor startT endT maxp fuel,
      InTimeRange parse startT endT p) ∧
    (∀ mp, maxp = some mp → 0 < mp →
      (get_all_user_posts serverA parse actor startT endT maxp fuel).length
        ≤ mp) ∧
    (∀ p ∈ get_all_user_posts_unauth serverU parse actor startT endT maxp fuel,
      InTimeRange parse startT endT p) ∧
    (∀ mp, maxp = some mp → 0 < mp →
      (get_all_user_posts_unauth serverU parse actor startT endT maxp
        fuel).length ≤ mp) := by
  have haccnil : AccOk parse startT endT maxp [] := by
    constructor
    · intro q hq
      simp at hq
    · intro mp hm hp
      simpa using hp
  have hA := userPostsLoop_ok serverA actor parse startT endT maxp
    (processAuthorPage parse startT endT maxp)
    (processAuthorPage_ok parse startT endT maxp) fuel [] none 0 haccnil
  have hU := userPostsLoop_ok serverU actor parse startT endT maxp
    (processAuthorPageUnauth parse startT endT maxp)
    (processAuthorPageUnauth_ok parse startT endT maxp) fuel [] none 0 haccnil
  exact ⟨hA.1, hA.2, hU.1, hU.2⟩

/-- Concrete author-feed page for the claim C9 witness: one in-range
post, one with no `createdAt`, one out of range. -/
def c9Server : Nat → AuthorPageRequest → PageResponse FeedItem :=
  fun _ _ => PageResponse.ok
    [⟨⟨none, ⟨some "a", []⟩⟩, [⟨defaultPostView, []⟩]⟩,
      ⟨⟨none, ⟨none, []⟩⟩, []⟩,
      ⟨⟨none, ⟨some "z", []⟩⟩, []⟩] none

/-- Concrete parse function for the claim C9 witness: only `"a"` parses,
to the time `5`. -/
def c9Parse : String → Option Int :=
  fun s => if s = "a" then some 5 else none

/-- Witness for claim C9 on a concrete page: the in-range post (with its
comments reset) is returned, within the positive limit. -/
theorem get_all_user_posts_invariant_witness :
    ((⟨⟨none, ⟨some "a", []⟩⟩, []⟩ : FeedItem)
        ∈ get_all_user_posts c9Server c9Parse "actor" (some 0) (some 10)
            (some 2) 5 ∧
      InTimeRange c9Parse (some 0) (some 10) ⟨⟨none, ⟨some "a", []⟩⟩, []⟩) ∧
    (some 2 = some 2 ∧ 0 < 2 ∧
      (get_all_user_posts c9Server c9Parse "actor" (some 0) (some 10)
          (some 2) 5).length ≤ 2) :=
  ⟨⟨by decide,
      (get_all_user_posts_invariant c9Server c9Server c9Parse "actor"
        (some 0) (some 10) (some 2) 5).1 ⟨⟨none, ⟨some "a", []⟩⟩, []⟩
        (by decide)⟩,
    rfl, by decide,
    (get_all_user_posts_invariant c9Server c9Server c9Parse "actor"
      (some 0) (some 10) (some 2) 5).2.1 2 rfl (by decide)⟩
